import Mathlib

/-!
Verification model of the tagged causal broadcast middleware.

The Rust source is embedded shallowly:
  - Rust Vec and SmallVec become Lean List, usize becomes Nat;
  - HashMap becomes an association list with first-match lookup;
  - functions that can panic in Rust (unwrap, expect, explicit panic calls,
    out of range indexing that drives control flow) return Option, with
    none standing for the panic;
  - plain out of range Vec reads that Rust would abort on are modelled with
    getD and a default; the theorems below only ever evaluate them under
    bounds assumptions that make the default unreachable;
  - the recursive walks of the dependency graph engine and the delivery
    queue drain loop take an explicit fuel argument, consumed once per
    nested call, so that every definition is structurally recursive.

Each definition carries a comment naming the Rust item it translates.
-/

/-- Dot: a peer id paired with that peers send counter
(src/graph/middleware/dot.rs). -/
structure Dot where
  id : Nat
  counter : Nat
deriving DecidableEq, Repr

/-- Version vector over usize entries (src/vv/structs/version_vector.rs). -/
abbrev VersionVector := List Nat

/-- Entry read of a version vector. Rust indexing panics out of bounds; the
theorems below keep the relevant indices in bounds so the default 0 is
never reached in any evaluated statement. -/
def vvGet (v : VersionVector) (i : Nat) : Nat :=
  v.getD i 0

/-- VersionVector::cmp: every entry of a is greater or equal to the same
entry of b (src/vv/structs/version_vector.rs lines 51 to 63). -/
def VersionVector.cmp (a b : VersionVector) : Bool :=
  (List.range a.length).all fun i => decide (vvGet a i ≥ vvGet b i)

/-- VersionVector::compare_version_vectors: entry index of b must be exactly
one above a, every other entry of b must be at most the entry of a
(src/vv/structs/version_vector.rs lines 76 to 92). -/
def compare_version_vectors (index : Nat) (a b : VersionVector) : Bool :=
  (List.range a.length).all fun i =>
    if i ≠ index then decide (vvGet b i ≤ vvGet a i)
    else decide (vvGet b i = vvGet a i + 1)

/-- VersionVector::equal: list equality, as the Ord comparison in the source
(src/vv/structs/version_vector.rs lines 101 to 104). -/
def VersionVector.equal (a b : VersionVector) : Bool :=
  a == b

/-- VersionVector::dif: the dots enumerated between two version vectors
(src/vv/structs/version_vector.rs lines 117 to 133). The Rust source
computes greater[i] - lesser[i] on usize, which aborts on underflow in
debug builds; Lean Nat subtraction truncates instead. The two agree on all
arguments with greater[i] at least lesser[i], and the no underflow theorem
below shows the engine only calls dif on such arguments. -/
def VersionVector.dif (greater lesser : VersionVector) (length : Nat) :
    List (Nat × Nat) :=
  (List.range length).foldl
    (fun dots i =>
      if vvGet greater i - vvGet lesser i > 0 then
        dots ++ (List.range' (vvGet lesser i + 1) (vvGet greater i - vvGet lesser i)).map
          (fun cntr => (i, cntr))
      else dots)
    []

/-- Contribution of one index to VersionVector::dif: the dots
(i, lesser[i] + 1) up to (i, greater[i]) when the entry grew, nothing
otherwise. The fold in dif appends exactly these blocks in index order. -/
def difCol (greater lesser : VersionVector) (i : Nat) : List (Nat × Nat) :=
  if vvGet greater i - vvGet lesser i > 0 then
    (List.range' (vvGet lesser i + 1) (vvGet greater i - vvGet lesser i)).map
      (fun cntr => (i, cntr))
  else []

/-- ArrayMap: arena with a free slot stack (src/graph/middleware/dag.rs). -/
structure ArrayMap (T : Type) where
  nodes : List T
  available_indexes : List Nat
deriving DecidableEq, Repr

/-- ArrayMap::new: empty node array and a descending free list, so that
Vec pop hands out 0, 1, 2, ... in order
(src/graph/middleware/dag.rs lines 23 to 35). -/
def ArrayMap.new (T : Type) (initial_capacity : Nat) : ArrayMap T :=
  { nodes := [],
    available_indexes :=
      (List.range initial_capacity).map (fun i => initial_capacity - 1 - i) }

/-- ArrayMap::push: pop a free index if one exists, overwrite a recycled
cell or append, otherwise append at the back
(src/graph/middleware/dag.rs lines 44 to 67). Rust Vec pop takes the last
element. -/
def ArrayMap.push {T : Type} (m : ArrayMap T) (node : T) : ArrayMap T × Nat :=
  match m.available_indexes.getLast? with
  | some index =>
    if index < m.nodes.length then
      ({ nodes := m.nodes.set index node,
         available_indexes := m.available_indexes.dropLast }, index)
    else
      ({ nodes := m.nodes ++ [node],
         available_indexes := m.available_indexes.dropLast }, index)
  | none =>
    ({ nodes := m.nodes ++ [node],
       available_indexes := m.available_indexes }, m.nodes.length)

/-- ArrayMap::remove: the expect call panics exactly when nodes.get(index)
is None, that is when index is out of bounds of the node array; on success
the index is pushed onto the free list and the node array is untouched
(src/graph/middleware/dag.rs lines 76 to 82). -/
def ArrayMap.remove {T : Type} (m : ArrayMap T) (index : Nat) :
    Option (ArrayMap T) :=
  if index < m.nodes.length then
    some { nodes := m.nodes,
           available_indexes := m.available_indexes ++ [index] }
  else none

/-- ArrayMap::node_number (src/graph/middleware/dag.rs lines 87 to 89). -/
def ArrayMap.node_number {T : Type} (m : ArrayMap T) : Nat :=
  m.nodes.length

/-- Grow of a bit vector to n entries filled with v, as BitVec grow in the
bit_vec crate: existing entries are kept. -/
def bvGrow (b : List Bool) (n : Nat) (v : Bool) : List Bool :=
  b ++ List.replicate (n - b.length) v

namespace vv

/-- Message on the vv wire (src/vv/structs/messages.rs lines 7 to 14). -/
structure Message where
  id : Nat
  payload : List Nat
  version_vector : VersionVector
deriving DecidableEq, Repr

/-- QueueNode: queued message with its sender
(src/vv/middleware/version_vector.rs lines 13 to 18). -/
structure QueueNode where
  j : Nat
  message : Message
deriving DecidableEq, Repr

/-- StableDot: delivered message waiting to become stable
(src/vv/middleware/version_vector.rs lines 24 to 31). -/
structure StableDot where
  ctr : Nat
  j : Nat
  message : Message
deriving DecidableEq, Repr

/-- MiddlewareClient: events emitted to the client channel
(src/vv/structs/messages.rs lines 72 to 87). -/
inductive MiddlewareClient where
  | DELIVER (sender_id : Nat) (message : Message) (version_vector : VersionVector)
  | STABLE (sender_id : Nat) (message_id : Nat) (version_vector : VersionVector)
  | SETUP
deriving DecidableEq, Repr

/-- Association list model of the HashMap from Dot to StableDot. -/
abbrev SMapT := List (Dot × StableDot)

/-- HashMap contains_key. -/
def smapContains (m : SMapT) (d : Dot) : Bool :=
  m.any fun p => p.1 == d

/-- HashMap get, first matching key. -/
def smapGet (m : SMapT) (d : Dot) : Option StableDot :=
  (m.find? fun p => p.1 == d).map Prod.snd

/-- HashMap insert: the new binding replaces any old one. -/
def smapInsert (m : SMapT) (d : Dot) (v : StableDot) : SMapT :=
  (d, v) :: m.filter fun p => ¬ p.1 == d

/-- HashMap remove. -/
def smapRemove (m : SMapT) (d : Dot) : SMapT :=
  m.filter fun p => ¬ p.1 == d

/-- Sort key used by VV::stabilize: the arrival counter stored in SMap for
the dot. The Rust comparator unwraps the lookup; the dots handed to it are
checked for membership right after, so the default 0 never decides an
evaluated comparison in the theorems below. -/
def ctrKey (m : SMapT) (d : Dot) : Nat :=
  ((smapGet m d).map StableDot.ctr).getD 0

/-- Emission loop of VV::stabilize: walk the sorted dots, panic (none) when
a dot is missing from SMap, otherwise remove it and emit STABLE
(src/vv/middleware/version_vector.rs lines 281 to 297). -/
def stabilizeEmit : List Dot → SMapT → Option (SMapT × List MiddlewareClient)
  | [], m => some (m, [])
  | d :: rest, m =>
    match smapGet m d with
    | none => none
    | some sd =>
      (stabilizeEmit rest (smapRemove m d)).map fun pr =>
        (pr.1, MiddlewareClient.STABLE sd.j sd.message.id sd.message.version_vector :: pr.2)

/-- State of the VV middleware engine
(src/vv/middleware/version_vector.rs lines 54 to 67). The client channel
becomes the returned trace and the configuration collapses to the
track_causal_stability flag. -/
structure VV where
  V : VersionVector
  R : VersionVector
  DQ : List QueueNode
  M : List VersionVector
  M_entry_row_num : VersionVector
  SV : VersionVector
  SMap : SMapT
  ctr : Nat
  peer_index : Nat
  track_causal_stability : Bool
  peer_number : Nat
deriving DecidableEq, Repr

/-- Inner minimum scan of VV::calculateSV for one column: start from row 0
and keep the first row achieving a strictly smaller entry
(src/vv/middleware/version_vector.rs lines 307 to 315). -/
def colMinAux (M : List VersionVector) (column : Nat) (peer_number : Nat) :
    Nat × Nat :=
  (List.range' 1 (peer_number - 1)).foldl
    (fun acc row =>
      if vvGet (M.getD row []) column < acc.1 then (vvGet (M.getD row []) column, row)
      else acc)
    (vvGet (M.getD 0 []) column, 0)

/-- VV::calculateSV: recompute the minimum of every column currently owned
by sender_id, returning the new stable vector together with the updated
column owner vector (src/vv/middleware/version_vector.rs lines 300 to 323).
The source mutates M_entry_row_num in place while looping over columns in
order; threading the pair through the fold reproduces that exactly. -/
def VV.calculateSV (s : VV) (sender_id : Nat) : VersionVector × VersionVector :=
  (List.range s.peer_number).foldl
    (fun acc column =>
      if vvGet acc.2 column = sender_id then
        let mr := colMinAux s.M column s.peer_number
        (acc.1.set column mr.1, acc.2.set column mr.2)
      else acc)
    (s.SV, s.M_entry_row_num)

/-- VV::stabilize: sort the dots by arrival counter and emit them
(src/vv/middleware/version_vector.rs lines 274 to 298). -/
def VV.stabilize (s : VV) (SD : List Dot) : Option (VV × List MiddlewareClient) :=
  let sorted := SD.mergeSort fun a b => decide (ctrKey s.SMap a ≤ ctrKey s.SMap b)
  (stabilizeEmit sorted s.SMap).map fun pr =>
    ({ s with SMap := pr.1 }, pr.2)

/-- State of VV::updatestability after the matrix rows, the counter and the
SMap entry have been written, before the stable vector work
(src/vv/middleware/version_vector.rs lines 233 to 248). -/
def VV.afterRecord (s : VV) (j : Nat) (message : Message) : VV :=
  let M1 := s.M.set s.peer_index s.V
  let M2 := if j ≠ s.peer_index then M1.set j message.version_vector else M1
  { s with
    M := M2,
    ctr := s.ctr + 1,
    SMap := smapInsert s.SMap (Dot.mk j (vvGet message.version_vector j))
      (StableDot.mk (s.ctr + 1) j message) }

/-- Stable vector part of VV::updatestability: when the sender owns a column
of the minimum, recompute, and if the stable vector changed emit the
difference dots through stabilize
(src/vv/middleware/version_vector.rs lines 250 to 271). -/
def VV.updatestabilityCore (s1 : VV) (j : Nat) : Option (VV × List MiddlewareClient) :=
  if s1.M_entry_row_num.contains j then
    let pr := s1.calculateSV j
    let s2 := { s1 with M_entry_row_num := pr.2 }
    if VersionVector.equal s2.SV pr.1 then some (s2, [])
    else
      let SD := (VersionVector.dif pr.1 s2.SV pr.1.length).map fun q => Dot.mk q.1 q.2
      VV.stabilize { s2 with SV := pr.1 } SD
  else some (s1, [])

/-- VV::updatestability: record the new row and SMap entry, panic (none) on
a repeated dot, then run the stable vector work
(src/vv/middleware/version_vector.rs lines 232 to 272). The source bumps
ctr before the duplicate check; in the panic case the process dies, so the
state is dropped either way. -/
def VV.updatestability (s : VV) (j : Nat) (message : Message) :
    Option (VV × List MiddlewareClient) :=
  if smapContains s.SMap (Dot.mk j (vvGet message.version_vector j)) then none
  else VV.updatestabilityCore (s.afterRecord j message) j

/-- VV::dequeue, the local send path
(src/vv/middleware/version_vector.rs lines 121 to 127). -/
def VV.dequeue (s : VV) (message : Message) : Option (VV × List MiddlewareClient) :=
  let s1 := { s with V := s.V.set s.peer_index (vvGet s.V s.peer_index + 1) }
  if s1.track_causal_stability then s1.updatestability s1.peer_index message
  else some (s1, [])

/-- VV::deliver_and_log_message, reduced to the message and sender it
resolves from its option arguments
(src/vv/middleware/version_vector.rs lines 200 to 230). -/
def VV.deliver_and_log_message (s : VV) (sender_id : Nat) (message : Message) :
    Option (VV × List MiddlewareClient) :=
  let s1 := { s with V := s.V.set sender_id (vvGet s.V sender_id + 1) }
  let ev := MiddlewareClient.DELIVER sender_id message message.version_vector
  if s1.track_causal_stability then
    (s1.updatestability sender_id message).map fun pr => (pr.1, ev :: pr.2)
  else some (s1, [ev])

/-- Result of one front to back pass of the drain loop of VV::deliver:
final state, retained queue nodes in order, emitted events, and whether
any message was delivered during the pass. -/
structure PassResult where
  state : VV
  retained : List QueueNode
  trace : List MiddlewareClient
  delivered : Bool

/-- One pass of the compaction loop in VV::deliver: walk the queue in
order, deliver every node that has become deliverable against the current
version vector, keep the rest in place
(src/vv/middleware/version_vector.rs lines 159 to 196). The in place
overwrite at received_index only ever copies nodes already read, so a pass
over the list of queue nodes is an exact model. -/
def VV.deliverPass : VV → List QueueNode → Option PassResult
  | s, [] => some (PassResult.mk s [] [] false)
  | s, qn :: rest =>
    if compare_version_vectors qn.j s.V qn.message.version_vector then
      (VV.deliver_and_log_message s qn.j qn.message).bind fun pr =>
      (VV.deliverPass pr.1 rest).map fun r =>
        PassResult.mk r.state r.retained (pr.2 ++ r.trace) true
    else
      (VV.deliverPass s rest).map fun r =>
        PassResult.mk r.state (qn :: r.retained) r.trace r.delivered

/-- Outer loop of VV::deliver: repeat passes while a pass delivered
something and the truncated queue is still non empty
(src/vv/middleware/version_vector.rs lines 155 to 198). Fuel bounds the
number of passes. -/
def VV.deliverLoop : Nat → VV → Option (VV × List MiddlewareClient)
  | 0, _ => none
  | fuel + 1, s =>
    (VV.deliverPass s s.DQ).bind fun r =>
    let s1 := { r.state with DQ := r.retained }
    if r.delivered ∧ r.retained ≠ [] then
      (VV.deliverLoop fuel s1).map fun pr => (pr.1, r.trace ++ pr.2)
    else some (s1, r.trace)

/-- VV::receive (src/vv/middleware/version_vector.rs lines 138 to 153). -/
def VV.receive (fuel : Nat) (s : VV) (j : Nat) (message : Message) :
    Option (VV × List MiddlewareClient) :=
  if vvGet s.R j < vvGet message.version_vector j then
    let s1 := { s with R := s.R.set j (vvGet s.R j + 1) }
    if compare_version_vectors j s1.V message.version_vector then
      (s1.deliver_and_log_message j message).bind fun pr =>
      if pr.1.DQ.length > 0 then
        (VV.deliverLoop fuel pr.1).map fun q => (q.1, pr.2 ++ q.2)
      else some pr
    else some ({ s1 with DQ := s1.DQ ++ [QueueNode.mk j message] }, [])
  else some (s, [])

end vv

namespace graph

/-- Stage of a node in the causal dependency graph
(src/graph/middleware/node.rs lines 11 to 20). -/
inductive Stage where
  | SLT
  | RCV
  | DLV
  | STB
deriving DecidableEq, Repr

/-- Node of the causal dependency graph
(src/graph/middleware/node.rs lines 26 to 41). The bit string becomes a
list of booleans. -/
structure Node where
  dot : Dot
  stage : Stage
  bits : List Bool
  payload : Option (List Nat)
  context : Option (List Dot)
  predecessors : List Nat
  successors : List Nat
deriving DecidableEq, Repr

/-- Node::new: stage SLT, empty bit string, no payload or context
(src/graph/middleware/node.rs lines 51 to 65). -/
def Node.new (dot : Dot) : Node :=
  { dot := dot, stage := Stage.SLT, bits := [], payload := none,
    context := none, predecessors := [], successors := [] }

/-- Message on the graph wire (src/graph/structs/message.rs lines 7 to 14). -/
structure Message where
  dot : Dot
  payload : List Nat
  context : List Dot
deriving DecidableEq, Repr

/-- ClientMessage: events the middleware emits to the client
(src/graph/middleware/message_types.rs lines 7 to 18). -/
inductive ClientMessage where
  | Empty
  | Delivery (payload : List Nat) (dot : Dot) (context : List Dot)
  | Stable (dot : Dot)
deriving DecidableEq, Repr

/-- Association list model of the HashMap from Dot to graph index. -/
abbrev DotIndexMap := List (Dot × Nat)

/-- HashMap get on the dot to index map. -/
def dmGet (m : DotIndexMap) (d : Dot) : Option Nat :=
  (m.find? fun p => p.1 == d).map Prod.snd

/-- HashMap insert on the dot to index map. -/
def dmInsert (m : DotIndexMap) (d : Dot) (i : Nat) : DotIndexMap :=
  (d, i) :: m.filter fun p => ¬ p.1 == d

/-- HashMap remove on the dot to index map. -/
def dmRemove (m : DotIndexMap) (d : Dot) : DotIndexMap :=
  m.filter fun p => ¬ p.1 == d

/-- State of the graph middleware engine
(src/graph/middleware/graph.rs lines 19 to 27). The client channel becomes
the returned trace and the configuration collapses to the
track_causal_stability flag. -/
structure GRAPH where
  G : ArrayMap Node
  V : List Nat
  dot_to_index_map : DotIndexMap
  peer_number : Nat
  peer_index : Nat
  track_causal_stability : Bool
deriving DecidableEq, Repr

/-- Indexed read of the arena, G[i] in the source; Rust panics out of
bounds, modelled by none. -/
def GRAPH.getNode (s : GRAPH) (i : Nat) : Option Node :=
  s.G.nodes.get? i

/-- Indexed write of the arena, G[i] = n in the source. An out of bounds
set is a no op here where Rust would panic; every state evaluated in the
theorems below keeps the index in bounds. -/
def GRAPH.setNode (s : GRAPH) (i : Nat) (n : Node) : GRAPH :=
  { s with G := { s.G with nodes := s.G.nodes.set i n } }

/-- Push a fresh node into the arena and record its dot in the index map,
the shared create pattern of GRAPH::receive
(src/graph/middleware/graph.rs lines 139 to 148 and 178 to 188). -/
def GRAPH.pushNode (s : GRAPH) (d : Dot) : GRAPH × Nat :=
  let pr := s.G.push (Node.new d)
  ({ s with G := pr.1, dot_to_index_map := dmInsert s.dot_to_index_map d pr.2 },
   pr.2)

/-- GRAPH::stable: a dot is stable when its counter is covered by the
version vector and either it left the graph or its node reached stage STB
(src/graph/middleware/graph.rs lines 229 to 234). An out of bounds graph
read, on which Rust would panic, yields false here; the states evaluated
below keep every mapped index in bounds. -/
def GRAPH.stable (s : GRAPH) (dot : Dot) : Bool :=
  match dmGet s.dot_to_index_map dot with
  | some index =>
    decide (dot.counter ≤ vvGet s.V dot.id) &&
      (match s.G.nodes.get? index with
       | some nd => nd.stage == Stage.STB
       | none => false)
  | none => decide (dot.counter ≤ vvGet s.V dot.id)

/-- GRAPH::deletestable: unlink the dot from the predecessor lists of its
successors, then recycle its arena slot and drop the map entry
(src/graph/middleware/graph.rs lines 359 to 372). -/
def GRAPH.deletestable (s : GRAPH) (dot : Dot) : Option GRAPH :=
  (dmGet s.dot_to_index_map dot).bind fun dgi =>
  (s.G.nodes.get? dgi).bind fun node =>
  (node.successors.foldlM
    (fun (st : GRAPH) sidx =>
      (st.G.nodes.get? sidx).map fun sn =>
        st.setNode sidx
          { sn with predecessors := sn.predecessors.filter fun idx => idx ≠ dgi })
    s).bind fun s1 =>
  (s1.G.remove dgi).map fun g2 =>
    { s1 with G := g2, dot_to_index_map := dmRemove s1.dot_to_index_map dot }

/-- Call labels for the mutually recursive walk of the graph engine:
deliver, updatestability, stabilize and their three iteration loops.
Folding the family into one fuel indexed function keeps the recursion
structural, so concrete runs reduce by evaluation. -/
inductive GCall where
  | deliver (msg_graph_index : Nat)
  | upd (j : Nat) (msg_idx : Nat)
  | updLoop (j : Nat) (preds : List Nat)
  | stab (msg_idx : Nat)
  | stabLoop (preds : List Nat)
  | succLoop (j : Nat) (succs : List Nat)
deriving DecidableEq, Repr

/-- The recursive core of the graph engine, translated arm by arm:
deliver is GRAPH::deliver (src/graph/middleware/graph.rs lines 241 to 303)
with the source call order, updatestability before the successor sweep;
upd and updLoop are GRAPH::updatestability (lines 308 to 324); stab and
stabLoop are GRAPH::stabilize (lines 326 to 350); succLoop is the
successor sweep inside deliver (lines 281 to 295). Each nested call
consumes one unit of fuel; none models both fuel exhaustion and a Rust
panic. -/
def GRAPH.run : Nat → GRAPH → GCall → Option (GRAPH × List ClientMessage)
  | 0, _, _ => none
  | fuel + 1, s, c =>
    match c with
    | GCall.deliver i =>
      match s.getNode i with
      | none => none
      | some node =>
        match node.payload, node.context with
        | some payload, some context =>
          let ev := ClientMessage.Delivery payload node.dot context
          let j := node.dot.id
          let s1 := { s with V := s.V.set j node.dot.counter }
          let s2 :=
            if s1.track_causal_stability then
              s1.setNode i
                { node with
                  stage := Stage.DLV,
                  bits := ((bvGrow [] s1.peer_number true).set s1.peer_index false).set j false }
            else s1
          (if s2.track_causal_stability then GRAPH.run fuel s2 (GCall.upd j i)
           else some (s2, [])).bind fun pr =>
          match pr.1.getNode i with
          | none => none
          | some node3 =>
            (GRAPH.run fuel pr.1 (GCall.succLoop j node3.successors)).bind fun qr =>
            ((if ¬ qr.1.track_causal_stability then
              match qr.1.getNode i with
              | none => none
              | some node4 =>
                (qr.1.deletestable node4.dot).map fun sd => (sd, ([] : List ClientMessage))
             else some (qr.1, [])) : Option (GRAPH × List ClientMessage)).map fun fr =>
            (fr.1, ev :: (pr.2 ++ qr.2))
        | _, _ => none
    | GCall.upd j msg_idx =>
      match s.getNode msg_idx with
      | none => none
      | some node => GRAPH.run fuel s (GCall.updLoop j node.predecessors)
    | GCall.updLoop _ [] => some (s, [])
    | GCall.updLoop j (p :: rest) =>
      match s.getNode p with
      | none => none
      | some pn =>
        (if pn.stage ≠ Stage.STB then
          match pn.bits.get? j with
          | none => none
          | some bj =>
            if bj then
              let pn2 := { pn with bits := pn.bits.set j false }
              let s1 := s.setNode p pn2
              if pn2.bits.all (fun b => b = false) then GRAPH.run fuel s1 (GCall.stab p)
              else GRAPH.run fuel s1 (GCall.upd j p)
            else some (s, [])
         else some (s, [])).bind fun pr =>
        (GRAPH.run fuel pr.1 (GCall.updLoop j rest)).map fun qr =>
        (qr.1, pr.2 ++ qr.2)
    | GCall.stab msg_idx =>
      match s.getNode msg_idx with
      | none => none
      | some node =>
        (GRAPH.run fuel s (GCall.stabLoop node.predecessors)).bind fun pr =>
        match pr.1.getNode msg_idx with
        | none => none
        | some node1 =>
          some (pr.1.setNode msg_idx { node1 with stage := Stage.STB },
                pr.2 ++ [ClientMessage.Stable node1.dot])
    | GCall.stabLoop [] => some (s, [])
    | GCall.stabLoop (p :: rest) =>
      match s.getNode p with
      | none => none
      | some pn =>
        (if pn.stage ≠ Stage.STB then GRAPH.run fuel s (GCall.stab p)
         else some (s, [])).bind fun pr =>
        (GRAPH.run fuel pr.1 (GCall.stabLoop rest)).map fun qr =>
        (qr.1, pr.2 ++ qr.2)
    | GCall.succLoop _ [] => some (s, [])
    | GCall.succLoop j (sidx :: rest) =>
      match s.getNode sidx with
      | none => none
      | some sn =>
        let sn2 := { sn with bits := sn.bits.set j false }
        let s1 := s.setNode sidx sn2
        (if sn2.bits.all (fun b => b = false) then GRAPH.run fuel s1 (GCall.deliver sidx)
         else some (s1, [])).bind fun pr =>
        (GRAPH.run fuel pr.1 (GCall.succLoop j rest)).map fun qr =>
        (qr.1, pr.2 ++ qr.2)

/-- Variant of the walk whose deliver arm follows the order asserted by the
specification text: the successor sweep runs first and
updatestability(dot.id, index) runs only afterwards. Every other arm is
identical to the source translation. This definition exists only to be
compared against GRAPH.run, which translates the source order. -/
def GRAPH.runSpec : Nat → GRAPH → GCall → Option (GRAPH × List ClientMessage)
  | 0, _, _ => none
  | fuel + 1, s, c =>
    match c with
    | GCall.deliver i =>
      match s.getNode i with
      | none => none
      | some node =>
        match node.payload, node.context with
        | some payload, some context =>
          let ev := ClientMessage.Delivery payload node.dot context
          let j := node.dot.id
          let s1 := { s with V := s.V.set j node.dot.counter }
          let s2 :=
            if s1.track_causal_stability then
              s1.setNode i
                { node with
                  stage := Stage.DLV,
                  bits := ((bvGrow [] s1.peer_number true).set s1.peer_index false).set j false }
            else s1
          match s2.getNode i with
          | none => none
          | some node3 =>
            (GRAPH.runSpec fuel s2 (GCall.succLoop j node3.successors)).bind fun qr =>
            (if qr.1.track_causal_stability then GRAPH.runSpec fuel qr.1 (GCall.upd j i)
             else some (qr.1, [])).bind fun pr =>
            ((if ¬ pr.1.track_causal_stability then
              match pr.1.getNode i with
              | none => none
              | some node4 =>
                (pr.1.deletestable node4.dot).map fun sd => (sd, ([] : List ClientMessage))
             else some (pr.1, [])) : Option (GRAPH × List ClientMessage)).map fun fr =>
            (fr.1, ev :: (qr.2 ++ pr.2))
        | _, _ => none
    | GCall.upd j msg_idx =>
      match s.getNode msg_idx with
      | none => none
      | some node => GRAPH.runSpec fuel s (GCall.updLoop j node.predecessors)
    | GCall.updLoop _ [] => some (s, [])
    | GCall.updLoop j (p :: rest) =>
      match s.getNode p with
      | none => none
      | some pn =>
        (if pn.stage ≠ Stage.STB then
          match pn.bits.get? j with
          | none => none
          | some bj =>
            if bj then
              let pn2 := { pn with bits := pn.bits.set j false }
              let s1 := s.setNode p pn2
              if pn2.bits.all (fun b => b = false) then GRAPH.runSpec fuel s1 (GCall.stab p)
              else GRAPH.runSpec fuel s1 (GCall.upd j p)
            else some (s, [])
         else some (s, [])).bind fun pr =>
        (GRAPH.runSpec fuel pr.1 (GCall.updLoop j rest)).map fun qr =>
        (qr.1, pr.2 ++ qr.2)
    | GCall.stab msg_idx =>
      match s.getNode msg_idx with
      | none => none
      | some node =>
        (GRAPH.runSpec fuel s (GCall.stabLoop node.predecessors)).bind fun pr =>
        match pr.1.getNode msg_idx with
        | none => none
        | some node1 =>
          some (pr.1.setNode msg_idx { node1 with stage := Stage.STB },
                pr.2 ++ [ClientMessage.Stable node1.dot])
    | GCall.stabLoop [] => some (s, [])
    | GCall.stabLoop (p :: rest) =>
      match s.getNode p with
      | none => none
      | some pn =>
        (if pn.stage ≠ Stage.STB then GRAPH.runSpec fuel s (GCall.stab p)
         else some (s, [])).bind fun pr =>
        (GRAPH.runSpec fuel pr.1 (GCall.stabLoop rest)).map fun qr =>
        (qr.1, pr.2 ++ qr.2)
    | GCall.succLoop _ [] => some (s, [])
    | GCall.succLoop j (sidx :: rest) =>
      match s.getNode sidx with
      | none => none
      | some sn =>
        let sn2 := { sn with bits := sn.bits.set j false }
        let s1 := s.setNode sidx sn2
        (if sn2.bits.all (fun b => b = false) then GRAPH.runSpec fuel s1 (GCall.deliver sidx)
         else some (s1, [])).bind fun pr =>
        (GRAPH.runSpec fuel pr.1 (GCall.succLoop j rest)).map fun qr =>
        (qr.1, pr.2 ++ qr.2)

/-- One step of the predecessor wiring loop inside GRAPH::receive: look up
or create the predecessor node, append the received index to its successor
list, and raise the senders bit when the predecessor is not yet delivered
(src/graph/middleware/graph.rs lines 170 to 203). The accumulator carries
the engine state, the bit string under construction and the collected
predecessor indexes. -/
def GRAPH.receiveWire (received_message_index : Nat)
    (acc : GRAPH × List Bool × List Nat) (p : Dot) :
    Option (GRAPH × List Bool × List Nat) :=
  let s2 := acc.1
  let pr :=
    match dmGet s2.dot_to_index_map p with
    | some gi => (s2, gi)
    | none => s2.pushNode p
  match pr.1.getNode pr.2 with
  | none => none
  | some pn =>
    let s3 := pr.1.setNode pr.2
      { pn with successors := pn.successors ++ [received_message_index] }
    let b2 := if pn.stage ≠ Stage.DLV then acc.2.1.set pn.dot.id true else acc.2.1
    some (s3, b2, acc.2.2 ++ [pr.2])

/-- GRAPH::receive (src/graph/middleware/graph.rs lines 131 to 221). -/
def GRAPH.receive (fuel : Nat) (s : GRAPH) (message : Message) :
    Option (GRAPH × List ClientMessage) :=
  if vvGet s.V message.dot.id < message.dot.counter then
    let pr :=
      match dmGet s.dot_to_index_map message.dot with
      | some index => (s, index)
      | none => s.pushNode message.dot
    match pr.1.getNode pr.2 with
    | none => none
    | some rnode =>
      if rnode.stage ≠ Stage.RCV then
        let p_line := message.context.filter fun p => ¬ GRAPH.stable pr.1 p
        let b0 := bvGrow [] pr.1.peer_number false
        (p_line.foldlM (GRAPH.receiveWire pr.2) (pr.1, b0, ([] : List Nat))).bind
          fun acc =>
        match acc.1.getNode pr.2 with
        | none => none
        | some rnode2 =>
          let rnode3 :=
            { rnode2 with
              bits := acc.2.1,
              stage := Stage.RCV,
              payload := some message.payload,
              context := some message.context,
              predecessors := acc.2.2 }
          let s5 := acc.1.setNode pr.2 rnode3
          if rnode3.bits.all (fun b => b = false) then
            GRAPH.run fuel s5 (GCall.deliver pr.2)
          else some (s5, [])
      else some (pr.1, [])
  else some (s, [])

end graph

namespace graph_client

/-- GenericReturn: public delivery results of the client facade
(src/broadcast/broadcast_trait.rs lines 105 to 111). -/
inductive GenericReturn where
  | Delivery (payload : List Nat) (sender_id : Nat) (message_id : Nat)
  | Stable (sender_id : Nat) (message_id : Nat)
deriving DecidableEq, Repr

/-- GRAPH::update_context of the client facade: drop from the local
context every dot contained in the delivered message context, then append
the delivered dot (src/graph/graph.rs lines 67 to 70). -/
def update_context (dot : Dot) (message_context : List Dot)
    (local_context : List Dot) : List Dot :=
  (local_context.filter fun client_dot => ¬ message_context.contains client_dot) ++ [dot]

/-- GRAPH::handle_delivery of the client facade: a Delivery rewrites the
local context and is returned, a Stable is returned as is, and the Empty
sentinel panics, modelled by none (src/graph/graph.rs lines 37 to 53). -/
def handle_delivery (local_context : List Dot) (message : graph.ClientMessage) :
    Option (List Dot × GenericReturn) :=
  match message with
  | graph.ClientMessage.Delivery payload dot context =>
    some (update_context dot context local_context,
          GenericReturn.Delivery payload dot.id dot.counter)
  | graph.ClientMessage.Stable dot =>
    some (local_context, GenericReturn.Stable dot.id dot.counter)
  | graph.ClientMessage.Empty => none

/-- GRAPH::recv on a successfully dequeued message: the Ok branch routes
straight into handle_delivery (src/graph/graph.rs lines 265 to 270); the
Err branch returns the channel error unchanged and is not modelled. -/
def recv (local_context : List Dot) (dequeued : graph.ClientMessage) :
    Option (List Dot × GenericReturn) :=
  handle_delivery local_context dequeued

/-- GRAPH::try_recv on a successfully dequeued message
(src/graph/graph.rs lines 277 to 282). -/
def try_recv (local_context : List Dot) (dequeued : graph.ClientMessage) :
    Option (List Dot × GenericReturn) :=
  handle_delivery local_context dequeued

/-- GRAPH::recv_timeout on a successfully dequeued message
(src/graph/graph.rs lines 295 to 300). -/
def recv_timeout (local_context : List Dot) (dequeued : graph.ClientMessage) :
    Option (List Dot × GenericReturn) :=
  handle_delivery local_context dequeued

/-- handle_finished_setup: the dispatcher reacts to End by emitting the
Empty sentinel to the client
(src/graph/middleware/middleware_thread.rs lines 108 to 112). -/
def handle_finished_setup : List graph.ClientMessage :=
  [graph.ClientMessage.Empty]

/-- Drain loop of GRAPH::end over the messages remaining in the channel:
every non Empty message is discarded, the first Empty breaks the loop, and
an exhausted channel leaves the loop spinning, modelled as false
(src/graph/graph.rs lines 243 to 258). The loop never inspects a message
through handle_delivery, so it cannot panic. -/
def endLoop : List graph.ClientMessage → Bool
  | [] => false
  | graph.ClientMessage.Empty :: _ => true
  | _ :: rest => endLoop rest

end graph_client

namespace sender

/-- Mutable loop state of the batching sender thread
(src/graph/communication/sender.rs lines 38 to 47). Durations are carried
as microsecond counts. -/
structure FlushState where
  sender_timeout_flag : Bool
  buffered_messages : Nat
  buffered_bytes : Nat
  timeout : Nat
deriving DecidableEq, Repr

/-- calculate_timeout: reset to the lower batching timeout while the
channel is productive, otherwise double up to the upper cap
(src/graph/communication/sender.rs lines 115 to 135). -/
def calculate_timeout (timeout_flag : Bool) (timeout lower upper : Nat) : Nat :=
  if timeout_flag then lower
  else if timeout * 2 ≤ upper then timeout * 2
  else upper

/-- check_buffer_flush: flush when the buffered message count reaches the
message threshold, the buffered byte count exceeds the size threshold, or
the receive timed out with at least one buffered message; a flush resets
both counters, otherwise the adaptive timeout is recomputed on a timed out
receive (src/graph/communication/sender.rs lines 156 to 188). The error
flag is true exactly on the recv_timeout Timeout branch of the sender loop
(lines 79 to 101). The boolean the model returns records whether the
stream flush was invoked. -/
def check_buffer_flush (st : FlushState) (message_number size lower upper : Nat)
    (error : Bool) : FlushState × Bool :=
  if st.buffered_messages ≥ message_number ∨ st.buffered_bytes > size ∨
      (error = true ∧ st.buffered_messages > 0) then
    let flag := if error ∧ st.sender_timeout_flag then false else st.sender_timeout_flag
    ({ st with sender_timeout_flag := flag, buffered_messages := 0, buffered_bytes := 0 },
     true)
  else
    let flag := if error ∧ st.sender_timeout_flag then false else st.sender_timeout_flag
    let t := if error then calculate_timeout flag st.timeout lower upper else st.timeout
    ({ st with sender_timeout_flag := flag, timeout := t }, false)

end sender

namespace causality_checker

/-- VersionMatrix: one version vector per peer
(src/causality_checker/causality_checker_structs.rs lines 318 to 320). -/
abbrev VersionMatrix := List VersionVector

/-- VersionMatrix::check_stability
(src/causality_checker/causality_checker_structs.rs lines 349 to 356). -/
def check_stability (matrix : VersionMatrix) (dot_version_vector : VersionVector) : Bool :=
  (List.range matrix.length).all fun i =>
    VersionVector.cmp (matrix.getD i []) dot_version_vector

/-- VersionMatrix::update_peer_entry
(src/causality_checker/causality_checker_structs.rs lines 366 to 368). -/
def update_peer_entry (matrix : VersionMatrix) (peer_id : Nat)
    (dot_version_vector : VersionVector) : VersionMatrix :=
  matrix.set peer_id dot_version_vector

/-- Association list model of the HashMap from Dot to VersionVector. -/
abbrev DotVVMap := List (Dot × VersionVector)

/-- HashMap get on the dot version vector map. -/
def dvGet (m : DotVVMap) (d : Dot) : Option VersionVector :=
  (m.find? fun p => p.1 == d).map Prod.snd

/-- handle_peer_delivered_message: accept a Delivery of current_peer_dot by
peer i when the recorded dot version vector passes
compare_version_vectors against the receiver version vector; on success
bump the receiver entry of the dot sender and rewrite rows current_peer_dot.id
and i of the peer stability matrix; on failure (also when the dot has no
recorded version vector) return false and leave every structure unchanged
(src/causality_checker/causality_checker.rs lines 454 to 488). The caller
wraps a false return into a typed CausalityCheckerError. -/
def handle_peer_delivered_message (i : Nat) (current_peer_dot : Dot)
    (dot_version_vector_map : DotVVMap)
    (peer_version_vectors : List VersionVector)
    (peer_version_matrices : List VersionMatrix) :
    List VersionVector × List VersionMatrix × Bool :=
  match dvGet dot_version_vector_map current_peer_dot with
  | some dot_version_vector =>
    let peer_version_vector := peer_version_vectors.getD i []
    if compare_version_vectors current_peer_dot.id peer_version_vector
        dot_version_vector then
      let bumped := peer_version_vector.set current_peer_dot.id
        (vvGet peer_version_vector current_peer_dot.id + 1)
      let matrix := peer_version_matrices.getD i []
      let matrix2 := update_peer_entry
        (update_peer_entry matrix current_peer_dot.id dot_version_vector) i bumped
      (peer_version_vectors.set i bumped,
       peer_version_matrices.set i matrix2, true)
    else (peer_version_vectors, peer_version_matrices, false)
  | none => (peer_version_vectors, peer_version_matrices, false)

/-- Acceptance condition for a Delivery event exactly as the specification
sentence words it. Modelled from the spec: require the dot version vector
be pointwise at least the receiver version vector except exactly plus one
at the dot id. This definition follows the specification text, not the
source, and exists only to be compared against the source translation. -/
def specDeliveryAccept (d : Dot) (dot_vv receiver_vv : VersionVector) : Prop :=
  vvGet dot_vv d.id = vvGet receiver_vv d.id + 1 ∧
    ∀ k < receiver_vv.length, k ≠ d.id → vvGet dot_vv k ≥ vvGet receiver_vv k

instance (d : Dot) (a b : VersionVector) : Decidable (specDeliveryAccept d a b) := by
  unfold specDeliveryAccept
  exact instDecidableAnd

end causality_checker

/-! Concrete states used by the counterexamples and witnesses below. -/

/-- Stability event builder matching one loop step of VV::stabilize; the
SETUP fallback is never reached when the dot is present in the map. -/
def vv.stableEvent (m : vv.SMapT) (d : Dot) : vv.MiddlewareClient :=
  match vv.smapGet m d with
  | some sd => vv.MiddlewareClient.STABLE sd.j sd.message.id sd.message.version_vector
  | none => vv.MiddlewareClient.SETUP

/-- Example graph node: dot (1,1), delivered, still waiting for peer 0 in
its bit string, successor node 1. -/
def exP : graph.Node :=
  { dot := ⟨1, 1⟩, stage := graph.Stage.DLV, bits := [true, false, false],
    payload := some [1], context := some [], predecessors := [], successors := [1] }

/-- Example graph node: dot (0,1), received with all predecessors
delivered, predecessor node 0, successor node 2. -/
def exA : graph.Node :=
  { dot := ⟨0, 1⟩, stage := graph.Stage.RCV, bits := [false, false, false],
    payload := some [10], context := some [⟨1, 1⟩], predecessors := [0], successors := [2] }

/-- Example graph node: dot (1,2), received and waiting for dot (0,1) of
peer 0, predecessor node 1. -/
def exScc : graph.Node :=
  { dot := ⟨1, 2⟩, stage := graph.Stage.RCV, bits := [true, false, false],
    payload := some [20], context := some [⟨0, 1⟩], predecessors := [1], successors := [] }

/-- Example graph engine state of peer 2 in a group of three, stability
tracking on, about to deliver node 1. -/
def exG : graph.GRAPH :=
  { G := { nodes := [exP, exA, exScc], available_indexes := [] },
    V := [0, 1, 0],
    dot_to_index_map := [(⟨1, 1⟩, 0), (⟨0, 1⟩, 1), (⟨1, 2⟩, 2)],
    peer_number := 3, peer_index := 2, track_causal_stability := true }

/-- Node 1 of exG after the bookkeeping prefix of deliver: stage DLV and a
reset bit string. -/
def exA2 : graph.Node :=
  { exA with
    stage := graph.Stage.DLV,
    bits := ((bvGrow [] exG.peer_number true).set exG.peer_index false).set 0 false }

/-- The state of exG after both bookkeeping steps of deliver on node 1. -/
def exG2 : graph.GRAPH :=
  ({ exG with V := exG.V.set 0 1 } : graph.GRAPH).setNode 1 exA2

/-- Node 0 of exG once stabilized. -/
def exPstb : graph.Node :=
  { exP with stage := graph.Stage.STB, bits := [false, false, false] }

/-- Node 1 of exG once stabilized. -/
def exAstb : graph.Node :=
  { exA2 with stage := graph.Stage.STB, bits := [false, false, false] }

/-- Node 2 of exG once delivered, waiting for the acknowledgement of
peer 0. -/
def exSccDlv : graph.Node :=
  { exScc with stage := graph.Stage.DLV, bits := [true, false, false] }

/-- The state of exG2 after updatestability of the delivered dot: node 0
stabilized. -/
def exGupd : graph.GRAPH :=
  { G := { nodes := [exPstb, exA2, exScc], available_indexes := [] },
    V := [1, 1, 0],
    dot_to_index_map := [(⟨1, 1⟩, 0), (⟨0, 1⟩, 1), (⟨1, 2⟩, 2)],
    peer_number := 3, peer_index := 2, track_causal_stability := true }

/-- The state of exG at the end of deliver on node 1: every node delivered,
nodes 0 and 1 stable. -/
def exGFinal : graph.GRAPH :=
  { G := { nodes := [exPstb, exAstb, exSccDlv], available_indexes := [] },
    V := [1, 2, 0],
    dot_to_index_map := [(⟨1, 1⟩, 0), (⟨0, 1⟩, 1), (⟨1, 2⟩, 2)],
    peer_number := 3, peer_index := 2, track_causal_stability := true }

/-- Example message for the vv engine, sender 0. -/
def exMsg0 : vv.Message := ⟨7, [], [2, 0]⟩

/-- Example message for the vv engine, sender 1, version vector [1, 1]. -/
def exM : vv.Message := ⟨9, [42], [1, 1]⟩

/-- Example vv engine state of peer 0 in a group of two, stability
tracking on: one delivered message of peer 0 awaiting stability in SMap,
peer 1 owning both column minima of M. -/
def exS : vv.VV :=
  { V := [2, 1], R := [0, 1], DQ := [],
    M := [[2, 1], [1, 0]],
    M_entry_row_num := [1, 1],
    SV := [1, 0],
    SMap := [(⟨0, 2⟩, ⟨3, 0, exMsg0⟩)],
    ctr := 5, peer_index := 0, track_causal_stability := true, peer_number := 2 }

/-- Example arena holding one node whose slot 0 has already been pushed to
the free list by a remove call. -/
def exAM : ArrayMap Nat := { nodes := [7], available_indexes := [0] }

/-- Example graph engine state whose version vector already covers counter
3 of peer 0. -/
def exGraphDup : graph.GRAPH :=
  { G := { nodes := [], available_indexes := [] },
    V := [5],
    dot_to_index_map := [],
    peer_number := 1, peer_index := 0, track_causal_stability := true }

/-- Example stale graph message: dot (0,3) while the receiver already
covers counter 5 of peer 0. -/
def exDupMsg : graph.Message := ⟨⟨0, 3⟩, [1], []⟩

/-- Example vv engine state whose receive count for peer 0 already covers
the duplicate below. -/
def exVVDup : vv.VV :=
  { V := [1, 0], R := [4, 0], DQ := [],
    M := [[0, 0], [0, 0]],
    M_entry_row_num := [0, 0],
    SV := [0, 0],
    SMap := [],
    ctr := 0, peer_index := 1, track_causal_stability := true, peer_number := 2 }

/-- Example stale vv message from peer 0: entry 0 of its version vector is
not above the receive count. -/
def exVVDupMsg : vv.Message := ⟨2, [9], [2, 0]⟩

/-- Example checker map assigning dot (1,1) the version vector [5,1]. -/
def exCkMap : causality_checker.DotVVMap := [(⟨1, 1⟩, [5, 1])]

/-- Example checker receiver version vectors, all zero. -/
def exCkVVs : List VersionVector := [[0, 0], [0, 0]]

/-- Example checker stability matrices, all zero. -/
def exCkMats : List causality_checker.VersionMatrix :=
  [[[0, 0], [0, 0]], [[0, 0], [0, 0]]]

/-- Example checker map assigning dot (1,1) the version vector [0,1],
which is deliverable at a fresh peer 0. -/
def exCkMapOk : causality_checker.DotVVMap := [(⟨1, 1⟩, [0, 1])]

/-! Helper lemmas shared by the theorems below. -/

/-- Pointwise characterisation of compare_version_vectors: entry index of b
is exactly one above a and every other entry of b up to the length of a is
at most the entry of a. -/
theorem compare_version_vectors_spec (index : Nat) (a b : VersionVector)
    (h : index < a.length) :
    compare_version_vectors index a b = true ↔
      (vvGet b index = vvGet a index + 1 ∧
        ∀ k, k < a.length → k ≠ index → vvGet b k ≤ vvGet a k) := by
  unfold compare_version_vectors
  rw [List.all_eq_true]
  constructor
  · intro hall
    constructor
    · have h2 := hall index (List.mem_range.mpr h)
      simpa using h2
    · intro k hk hkj
      have h2 := hall k (List.mem_range.mpr hk)
      rw [if_pos hkj] at h2
      simpa using h2
  · rintro ⟨h1, h2⟩ i hi
    rw [List.mem_range] at hi
    by_cases hij : i = index
    · subst hij
      simp [h1]
    · rw [if_pos hij]
      simpa using h2 i hi hij

/-- C1: the deliverability test of the vv engine, the call
compare_version_vectors j V m.vv shared by the first receive path and the
queue drain pass, returns true iff the sender entry of the message version
vector is exactly one above the local entry and every other entry is at
most the local one. -/
theorem vv_deliverability_iff (j : Nat) (V mvv : VersionVector)
    (hj : j < V.length) :
    compare_version_vectors j V mvv = true ↔
      (vvGet mvv j = vvGet V j + 1 ∧
        ∀ k, k < V.length → k ≠ j → vvGet mvv k ≤ vvGet V k) :=
  compare_version_vectors_spec j V mvv hj

/-- Witness for vv_deliverability_iff at a concrete vector pair. -/
theorem vv_deliverability_iff_witness :
    0 < ([1, 2] : VersionVector).length ∧
      (compare_version_vectors 0 ([1, 2] : VersionVector) [2, 1] = true ↔
        (vvGet [2, 1] 0 = vvGet [1, 2] 0 + 1 ∧
          ∀ k, k < ([1, 2] : VersionVector).length → k ≠ 0 →
            vvGet [2, 1] k ≤ vvGet [1, 2] k)) :=
  ⟨by decide, vv_deliverability_iff 0 [1, 2] [2, 1] (by decide)⟩

/-- C4: a duplicate or stale message is dropped with the whole engine state
unchanged and nothing emitted: the graph engine when its version vector
already covers the dot counter, the vv engine when the sender entry of the
message version vector does not exceed the receive count. -/
theorem receive_duplicate_stale_drop (fg : Nat) (sg : graph.GRAPH)
    (mg : graph.Message) (fv : Nat) (sv : vv.VV) (j : Nat) (mv : vv.Message) :
    (mg.dot.counter ≤ vvGet sg.V mg.dot.id →
      graph.GRAPH.receive fg sg mg = some (sg, [])) ∧
    (vvGet mv.version_vector j ≤ vvGet sv.R j →
      vv.VV.receive fv sv j mv = some (sv, [])) := by
  constructor
  · intro h
    unfold graph.GRAPH.receive
    rw [if_neg (by omega)]
  · intro h
    unfold vv.VV.receive
    rw [if_neg (by omega)]

/-- Witness for receive_duplicate_stale_drop on concrete stale messages. -/
theorem receive_duplicate_stale_drop_witness :
    graph.GRAPH.receive 5 exGraphDup exDupMsg = some (exGraphDup, []) ∧
    vv.VV.receive 5 exVVDup 0 exVVDupMsg = some (exVVDup, []) :=
  ⟨(receive_duplicate_stale_drop 5 exGraphDup exDupMsg 5 exVVDup 0 exVVDupMsg).1
      (by decide),
   (receive_duplicate_stale_drop 5 exGraphDup exDupMsg 5 exVVDup 0 exVVDupMsg).2
      (by decide)⟩

/-- C6: handling a Delivery with dot d and context C rewrites the client
context L to (L minus C) plus d: every dot of L lying in C is removed, d
is appended at the end, every other dot keeps its multiplicity, and the
public return carries the payload and the dot fields. -/
theorem handle_delivery_context_update (payload : List Nat) (dot : Dot)
    (C L : List Dot) :
    ∃ L2,
      graph_client.handle_delivery L (graph.ClientMessage.Delivery payload dot C) =
        some (L2, graph_client.GenericReturn.Delivery payload dot.id dot.counter) ∧
      (∀ x : Dot, L2.count x =
        (if x ∈ C then 0 else L.count x) + (if x = dot then 1 else 0)) ∧
      L2.getLast? = some dot := by
  refine ⟨graph_client.update_context dot C L, rfl, ?_, ?_⟩
  · intro x
    unfold graph_client.update_context
    rw [List.count_append]
    congr 1
    · by_cases hx : x ∈ C
      · rw [if_pos hx, List.count_eq_zero]
        intro hmem
        rw [List.mem_filter] at hmem
        simp at hmem
        exact hmem.2 hx
      · rw [if_neg hx]
        apply List.count_filter
        simp [hx]
    · rw [List.count_singleton]
      by_cases hd : x = dot
      · subst hd
        simp
      · rw [if_neg hd, if_neg ?_]
        simp [hd]
        intro hcontra
        exact hd hcontra.symm
  · unfold graph_client.update_context
    exact List.getLast?_concat _

/-- C7 counterexample: after one push and one remove the slot 0 of the
arena sits on the free list, hence holds no live element, yet a second
remove of index 0 succeeds instead of failing: the check inspects only
array bounds. -/
theorem arraymap_remove_cex :
    ((ArrayMap.new Nat 0).push 7).1.remove 0 = some exAM ∧
    0 ∈ exAM.available_indexes ∧
    (exAM.remove 0).isSome = true := by decide

/-- C7 amended: remove verifies only that the index lies within the bounds
of the backing node array, failing (panic) otherwise; an in bounds index
passes even when it is already on the free list, and on success the index
is appended to the free list while the node array, hence the element
memory, stays untouched. -/
theorem arraymap_remove_bounds_only {T : Type} (m : ArrayMap T) (i : Nat) :
    (m.nodes.length ≤ i → m.remove i = none) ∧
    (i < m.nodes.length →
      m.remove i =
        some { nodes := m.nodes,
               available_indexes := m.available_indexes ++ [i] }) := by
  unfold ArrayMap.remove
  constructor
  · intro h
    rw [if_neg (by omega)]
  · intro h
    rw [if_pos h]

/-- Witness for arraymap_remove_bounds_only at both sides of the bound. -/
theorem arraymap_remove_bounds_only_witness :
    (exAM.nodes.length ≤ 1 ∧ exAM.remove 1 = none) ∧
    (0 < exAM.nodes.length ∧
      exAM.remove 0 =
        some { nodes := exAM.nodes,
               available_indexes := exAM.available_indexes ++ [0] }) :=
  ⟨⟨by decide, (arraymap_remove_bounds_only exAM 1).1 (by decide)⟩,
   ⟨by decide, (arraymap_remove_bounds_only exAM 0).2 (by decide)⟩⟩

/-- C8: check_buffer_flush flushes exactly when the buffered message count
reaches the message threshold, the byte count exceeds the size threshold,
or the receive timed out (error flag) with at least one buffered message;
a flush resets both counters to zero and otherwise both counters are left
unchanged. -/
theorem check_buffer_flush_iff (st : sender.FlushState)
    (message_number size lower upper : Nat) (error : Bool) :
    ((sender.check_buffer_flush st message_number size lower upper error).2 = true ↔
      (st.buffered_messages ≥ message_number ∨ st.buffered_bytes > size ∨
        (error = true ∧ st.buffered_messages > 0))) ∧
    ((sender.check_buffer_flush st message_number size lower upper error).2 = true →
      (sender.check_buffer_flush st message_number size lower upper error).1.buffered_messages = 0 ∧
      (sender.check_buffer_flush st message_number size lower upper error).1.buffered_bytes = 0) ∧
    ((sender.check_buffer_flush st message_number size lower upper error).2 = false →
      (sender.check_buffer_flush st message_number size lower upper error).1.buffered_messages
          = st.buffered_messages ∧
      (sender.check_buffer_flush st message_number size lower upper error).1.buffered_bytes
          = st.buffered_bytes) := by
  unfold sender.check_buffer_flush
  by_cases hc : (st.buffered_messages ≥ message_number ∨ st.buffered_bytes > size ∨
      (error = true ∧ st.buffered_messages > 0))
  · rw [if_pos hc]
    simp [hc]
  · rw [if_neg hc]
    simp [hc]

/-- Witness for check_buffer_flush_iff: three buffered messages against a
threshold of two flush and reset the counters. -/
theorem check_buffer_flush_iff_witness :
    ((sender.check_buffer_flush ⟨true, 3, 0, 10⟩ 2 100 5 50 false).2 = true ↔
      ((3 : Nat) ≥ 2 ∨ (0 : Nat) > 100 ∨ (false = true ∧ (3 : Nat) > 0))) ∧
    ((sender.check_buffer_flush ⟨true, 3, 0, 10⟩ 2 100 5 50 false).2 = true →
      (sender.check_buffer_flush ⟨true, 3, 0, 10⟩ 2 100 5 50 false).1.buffered_messages = 0 ∧
      (sender.check_buffer_flush ⟨true, 3, 0, 10⟩ 2 100 5 50 false).1.buffered_bytes = 0) ∧
    ((sender.check_buffer_flush ⟨true, 3, 0, 10⟩ 2 100 5 50 false).2 = false →
      (sender.check_buffer_flush ⟨true, 3, 0, 10⟩ 2 100 5 50 false).1.buffered_messages = 3 ∧
      (sender.check_buffer_flush ⟨true, 3, 0, 10⟩ 2 100 5 50 false).1.buffered_bytes = 0) :=
  check_buffer_flush_iff ⟨true, 3, 0, 10⟩ 2 100 5 50 false

/-- C10: a dequeued Empty sentinel makes handle_delivery panic (none) on
the recv, try_recv and recv_timeout paths alike, the dispatcher emits
exactly that sentinel when handling End, and only the end drain loop
consumes an Empty without inspecting it through handle_delivery. -/
theorem empty_sentinel_panics (L : List Dot) :
    graph_client.recv L graph.ClientMessage.Empty = none ∧
    graph_client.try_recv L graph.ClientMessage.Empty = none ∧
    graph_client.recv_timeout L graph.ClientMessage.Empty = none ∧
    graph_client.handle_finished_setup = [graph.ClientMessage.Empty] ∧
    ∀ q : List graph.ClientMessage, graph.ClientMessage.Empty ∈ q →
      graph_client.endLoop q = true := by
  refine ⟨rfl, rfl, rfl, rfl, ?_⟩
  intro q hq
  induction q with
  | nil => cases hq
  | cons m rest ih =>
    cases hq with
    | head => rfl
    | tail _ hmem =>
      cases m with
      | Empty => rfl
      | Delivery p d c => exact ih hmem
      | Stable d => exact ih hmem

/-- Witness for empty_sentinel_panics at a concrete context and queue. -/
theorem empty_sentinel_panics_witness :
    graph_client.recv [⟨0, 1⟩] graph.ClientMessage.Empty = none ∧
    graph_client.endLoop
      [graph.ClientMessage.Stable ⟨0, 1⟩, graph.ClientMessage.Empty] = true :=
  ⟨(empty_sentinel_panics [⟨0, 1⟩]).1,
   (empty_sentinel_panics [⟨0, 1⟩]).2.2.2.2
     [graph.ClientMessage.Stable ⟨0, 1⟩, graph.ClientMessage.Empty] (by decide)⟩

/-- C2 counterexample: on the state exG the source deliver emits the
Stable event produced by updatestability of the delivered dot before the
Delivery of the successor, while the successor first order asserted by the
claim (runSpec) emits the successor Delivery first; the two runs differ at
this concrete input. -/
theorem deliver_order_cex :
    graph.GRAPH.run 20 exG (graph.GCall.deliver 1) ≠
      graph.GRAPH.runSpec 20 exG (graph.GCall.deliver 1) ∧
    (graph.GRAPH.run 20 exG (graph.GCall.deliver 1)).map Prod.snd =
      some [graph.ClientMessage.Delivery [10] ⟨0, 1⟩ [⟨1, 1⟩],
            graph.ClientMessage.Stable ⟨1, 1⟩,
            graph.ClientMessage.Delivery [20] ⟨1, 2⟩ [⟨0, 1⟩],
            graph.ClientMessage.Stable ⟨0, 1⟩] ∧
    (graph.GRAPH.runSpec 20 exG (graph.GCall.deliver 1)).map Prod.snd =
      some [graph.ClientMessage.Delivery [10] ⟨0, 1⟩ [⟨1, 1⟩],
            graph.ClientMessage.Delivery [20] ⟨1, 2⟩ [⟨0, 1⟩],
            graph.ClientMessage.Stable ⟨1, 1⟩,
            graph.ClientMessage.Stable ⟨0, 1⟩] := by
  refine ⟨by decide, by decide, by decide⟩

/-- C2 amended: with stability tracking on, deliver(index) emits the
Delivery, sets V[dot.id] to dot.counter and resets the node stage and bit
string, then calls updatestability(dot.id, index) first, and only
afterwards clears bit dot.id in every successor bit string, recursively
delivering each successor whose bit string becomes all zero; the emitted
trace is the Delivery followed by the updatestability events followed by
the successor sweep events. -/
theorem deliver_updatestability_before_successors
    (fuel : Nat) (s : graph.GRAPH) (i : Nat) (node : graph.Node)
    (payload : List Nat) (context : List Dot)
    (hn : s.getNode i = some node)
    (hp : node.payload = some payload) (hc : node.context = some context)
    (ht : s.track_causal_stability = true)
    (s2 : graph.GRAPH)
    (hs2 : s2 =
      ({ s with V := s.V.set node.dot.id node.dot.counter } : graph.GRAPH).setNode i
        { node with
          stage := graph.Stage.DLV,
          bits := ((bvGrow [] s.peer_number true).set s.peer_index false).set
            node.dot.id false })
    (pr : graph.GRAPH × List graph.ClientMessage)
    (hupd : graph.GRAPH.run fuel s2 (graph.GCall.upd node.dot.id i) = some pr)
    (node3 : graph.Node) (hn3 : pr.1.getNode i = some node3)
    (qr : graph.GRAPH × List graph.ClientMessage)
    (hsucc : graph.GRAPH.run fuel pr.1
      (graph.GCall.succLoop node.dot.id node3.successors) = some qr)
    (htq : qr.1.track_causal_stability = true) :
    graph.GRAPH.run (fuel + 1) s (graph.GCall.deliver i) =
      some (qr.1, graph.ClientMessage.Delivery payload node.dot context :: (pr.2 ++ qr.2)) := by
  subst hs2
  simp only [graph.GRAPH.setNode, hp, hc, ht] at hupd
  simp only [graph.GRAPH.run, hn, hp, hc, ht, graph.GRAPH.setNode, if_true, eq_self_iff_true]
  rw [hupd]
  simp only [Option.some_bind, hn3, hsucc, htq]
  simp

/-- Witness for deliver_updatestability_before_successors on the concrete
state exG. -/
theorem deliver_updatestability_before_successors_witness :
    graph.GRAPH.run 20 exG (graph.GCall.deliver 1) =
      some (exGFinal,
        graph.ClientMessage.Delivery [10] exA.dot [⟨1, 1⟩] ::
          ([graph.ClientMessage.Stable ⟨1, 1⟩] ++
           [graph.ClientMessage.Delivery [20] ⟨1, 2⟩ [⟨0, 1⟩],
            graph.ClientMessage.Stable ⟨0, 1⟩])) :=
  deliver_updatestability_before_successors 19 exG 1 exA [10] [⟨1, 1⟩]
    (by decide) rfl rfl rfl exG2 (by decide)
    (exGupd, [graph.ClientMessage.Stable ⟨1, 1⟩]) (by decide)
    exA2 (by decide)
    (exGFinal,
      [graph.ClientMessage.Delivery [20] ⟨1, 2⟩ [⟨0, 1⟩],
       graph.ClientMessage.Stable ⟨0, 1⟩]) (by decide) (by decide)

/-- C3 counterexample: the claim requires the dot version vector be
pointwise at least the receiver version vector except exactly plus one at
the dot id; the assigned vector [5,1] of dot (1,1) satisfies that against
the receiver vector [0,0] of peer 0, yet the checker rejects the Delivery,
because the source comparison runs in the opposite direction. -/
theorem checker_delivery_direction_cex :
    causality_checker.dvGet exCkMap ⟨1, 1⟩ = some [5, 1] ∧
    causality_checker.specDeliveryAccept ⟨1, 1⟩ [5, 1] [0, 0] ∧
    (exCkVVs.getD 0 [] = ([0, 0] : VersionVector)) ∧
    causality_checker.handle_peer_delivered_message 0 ⟨1, 1⟩ exCkMap exCkVVs exCkMats =
      (exCkVVs, exCkMats, false) := by decide

/-- C3 amended: the checker accepts a Delivery of dot d by peer i iff d has
an assigned version vector that is pointwise at most the receiver version
vector except exactly plus one at position d.id; on acceptance it bumps
the receiver entry of d.id and rewrites rows d.id and i of the peer i
stability matrix, and on rejection (a false return that the caller wraps
into a typed checker error) every structure is left unchanged. -/
theorem handle_peer_delivered_message_spec (i : Nat) (d : Dot)
    (map : causality_checker.DotVVMap) (pvvs : List VersionVector)
    (mats : List causality_checker.VersionMatrix)
    (hd : d.id < (pvvs.getD i []).length) :
    ((causality_checker.handle_peer_delivered_message i d map pvvs mats).2.2 = true ↔
      ∃ dvv, causality_checker.dvGet map d = some dvv ∧
        vvGet dvv d.id = vvGet (pvvs.getD i []) d.id + 1 ∧
        ∀ k, k < (pvvs.getD i []).length → k ≠ d.id →
          vvGet dvv k ≤ vvGet (pvvs.getD i []) k) ∧
    ((causality_checker.handle_peer_delivered_message i d map pvvs mats).2.2 = false →
      causality_checker.handle_peer_delivered_message i d map pvvs mats =
        (pvvs, mats, false)) ∧
    (∀ dvv, causality_checker.dvGet map d = some dvv →
      compare_version_vectors d.id (pvvs.getD i []) dvv = true →
      causality_checker.handle_peer_delivered_message i d map pvvs mats =
        (pvvs.set i ((pvvs.getD i []).set d.id (vvGet (pvvs.getD i []) d.id + 1)),
         mats.set i
           (causality_checker.update_peer_entry
             (causality_checker.update_peer_entry (mats.getD i []) d.id dvv) i
             ((pvvs.getD i []).set d.id (vvGet (pvvs.getD i []) d.id + 1))),
         true)) := by
  unfold causality_checker.handle_peer_delivered_message
  cases hdv : causality_checker.dvGet map d with
  | none =>
    dsimp only
    refine ⟨by simp, by intro h; rfl, ?_⟩
    intro dvv hsome
    exact absurd hsome (by simp)
  | some dvv =>
    dsimp only
    by_cases hcmp : compare_version_vectors d.id (pvvs.getD i []) dvv = true
    · rw [if_pos hcmp]
      refine ⟨?_, ?_, ?_⟩
      · constructor
        · intro _
          exact ⟨dvv, rfl,
            (compare_version_vectors_spec d.id (pvvs.getD i []) dvv hd).mp hcmp⟩
        · intro _
          rfl
      · intro h
        exact absurd h (by simp)
      · intro dvv2 hdvv2 hcmp2
        rw [Option.some_inj] at hdvv2
        subst hdvv2
        rfl
    · rw [if_neg hcmp]
      refine ⟨?_, ?_, ?_⟩
      · constructor
        · intro h
          exact absurd h (by simp)
        · rintro ⟨dvv2, hdvv2, hprop⟩
          rw [Option.some_inj] at hdvv2
          subst hdvv2
          exact absurd
            ((compare_version_vectors_spec d.id (pvvs.getD i []) dvv hd).mpr hprop) hcmp
      · intro _
        rfl
      · intro dvv2 hdvv2 hcmp2
        rw [Option.some_inj] at hdvv2
        subst hdvv2
        exact absurd hcmp2 hcmp

/-- Witness for handle_peer_delivered_message_spec on an accepting
concrete delivery. -/
theorem handle_peer_delivered_message_spec_witness :
    ((causality_checker.handle_peer_delivered_message 0 ⟨1, 1⟩ exCkMapOk exCkVVs
        exCkMats).2.2 = true ↔
      ∃ dvv, causality_checker.dvGet exCkMapOk ⟨1, 1⟩ = some dvv ∧
        vvGet dvv 1 = vvGet (exCkVVs.getD 0 []) 1 + 1 ∧
        ∀ k, k < (exCkVVs.getD 0 []).length → k ≠ 1 →
          vvGet dvv k ≤ vvGet (exCkVVs.getD 0 []) k) ∧
    ((causality_checker.handle_peer_delivered_message 0 ⟨1, 1⟩ exCkMapOk exCkVVs
        exCkMats).2.2 = false →
      causality_checker.handle_peer_delivered_message 0 ⟨1, 1⟩ exCkMapOk exCkVVs
          exCkMats = (exCkVVs, exCkMats, false)) ∧
    (∀ dvv, causality_checker.dvGet exCkMapOk ⟨1, 1⟩ = some dvv →
      compare_version_vectors 1 (exCkVVs.getD 0 []) dvv = true →
      causality_checker.handle_peer_delivered_message 0 ⟨1, 1⟩ exCkMapOk exCkVVs
          exCkMats =
        (exCkVVs.set 0 ((exCkVVs.getD 0 []).set 1 (vvGet (exCkVVs.getD 0 []) 1 + 1)),
         exCkMats.set 0
           (causality_checker.update_peer_entry
             (causality_checker.update_peer_entry (exCkMats.getD 0 []) 1 dvv) 0
             ((exCkVVs.getD 0 []).set 1 (vvGet (exCkVVs.getD 0 []) 1 + 1))),
         true)) :=
  handle_peer_delivered_message_spec 0 ⟨1, 1⟩ exCkMapOk exCkVVs exCkMats (by decide)

/-- Lower bounds pass through a list set: the written value and the old
entry both dominate lb. -/
theorem vvGet_set_le (l : List Nat) (n a c lb : Nat)
    (hl : lb ≤ vvGet l c) (ha : lb ≤ a) : lb ≤ vvGet (l.set n a) c := by
  unfold vvGet
  rw [List.getD_eq_getElem?_getD, List.getElem?_set]
  by_cases h1 : n = c
  · rw [if_pos h1]
    by_cases h2 : n < l.length
    · rw [if_pos h2]
      exact ha
    · rw [if_neg h2]
      have he : l[c]? = none := List.getElem?_eq_none (by omega)
      unfold vvGet at hl
      rw [List.getD_eq_getElem?_getD, he] at hl
      simpa using hl
  · rw [if_neg h1, ← List.getD_eq_getElem?_getD]
    exact hl

/-- Entries away from the written index are unchanged by a list set. -/
theorem vvGet_set_ne (l : List Nat) (n a c : Nat) (h : n ≠ c) :
    vvGet (l.set n a) c = vvGet l c := by
  unfold vvGet
  rw [List.getD_eq_getElem?_getD, List.getElem?_set_ne h, ← List.getD_eq_getElem?_getD]

/-- The column minimum scan of calculateSV stays above any lower bound of
the whole column. -/
theorem colMinAux_ge (M : List VersionVector) (column N lb : Nat)
    (hpos : 0 < N)
    (hall : ∀ r, r < N → lb ≤ vvGet (M.getD r []) column) :
    lb ≤ (vv.colMinAux M column N).1 := by
  unfold vv.colMinAux
  have haux : ∀ (L : List Nat) (acc : Nat × Nat),
      lb ≤ acc.1 → (∀ r ∈ L, lb ≤ vvGet (M.getD r []) column) →
      lb ≤ (L.foldl (fun acc row =>
        if vvGet (M.getD row []) column < acc.1 then (vvGet (M.getD row []) column, row)
        else acc) acc).1 := by
    intro L
    induction L with
    | nil => intro acc h _; exact h
    | cons r rest ih =>
      intro acc hacc hall2
      rw [List.foldl_cons]
      by_cases hlt : vvGet (M.getD r []) column < acc.1
      · rw [if_pos hlt]
        exact ih _ (hall2 r (List.mem_cons_self r rest))
          (fun x hx => hall2 x (List.mem_cons_of_mem r hx))
      · rw [if_neg hlt]
        exact ih _ hacc (fun x hx => hall2 x (List.mem_cons_of_mem r hx))
  apply haux
  · exact hall 0 hpos
  · intro r hr
    rw [List.mem_range'_1] at hr
    exact hall r (by omega)

/-- Invariant of the column recompute fold of calculateSV: a pointwise
lower bound of the accumulator and of every matrix row survives the
fold. -/
theorem calculateSV_fold_lb (M : List VersionVector) (SV0 : VersionVector)
    (j N : Nat) (hpos : 0 < N)
    (hrows : ∀ r, r < N → ∀ c, c < N → vvGet SV0 c ≤ vvGet (M.getD r []) c) :
    ∀ (cols : List Nat), (∀ x ∈ cols, x < N) →
      ∀ (acc : VersionVector × VersionVector),
        (∀ c, vvGet SV0 c ≤ vvGet acc.1 c) →
        ∀ c, vvGet SV0 c ≤
          vvGet ((cols.foldl (fun acc column =>
            if vvGet acc.2 column = j then
              (acc.1.set column (vv.colMinAux M column N).1,
               acc.2.set column (vv.colMinAux M column N).2)
            else acc) acc).1) c := by
  intro cols
  induction cols with
  | nil => intro _ acc hacc c; exact hacc c
  | cons col rest ih =>
    intro hbound acc hacc c
    rw [List.foldl_cons]
    by_cases hown : vvGet acc.2 col = j
    · rw [if_pos hown]
      apply ih (fun x hx => hbound x (List.mem_cons_of_mem col hx))
      intro c2
      by_cases hc2 : col = c2
      · subst hc2
        apply vvGet_set_le _ _ _ _ _ (hacc col)
        apply colMinAux_ge M col N _ hpos
        intro r hr
        exact hrows r hr col (hbound col (List.mem_cons_self col rest))
      · rw [vvGet_set_ne _ _ _ _ hc2]
        exact hacc c2
    · rw [if_neg hown]
      exact ih (fun x hx => hbound x (List.mem_cons_of_mem col hx)) acc hacc c

/-- C9: under the invariant that the stable vector is a pointwise lower
bound of every row of the matrix M, calculateSV never returns a stable
vector with an entry below the current one, so the usize subtraction
greater[i] - lesser[i] inside VersionVector.dif, invoked as
dif(newSV, SV), never underflows: the truncated Nat subtraction round
trips. -/
theorem calculateSV_no_underflow (s : vv.VV) (j : Nat)
    (hpos : 0 < s.peer_number)
    (hrows : ∀ r, r < s.peer_number → ∀ c, c < s.peer_number →
      vvGet s.SV c ≤ vvGet (s.M.getD r []) c) :
    ∀ c, vvGet s.SV c ≤ vvGet (s.calculateSV j).1 c ∧
      vvGet (s.calculateSV j).1 c - vvGet s.SV c + vvGet s.SV c
        = vvGet (s.calculateSV j).1 c := by
  intro c
  have h1 : vvGet s.SV c ≤ vvGet (s.calculateSV j).1 c := by
    unfold vv.VV.calculateSV
    dsimp only
    apply calculateSV_fold_lb s.M s.SV j s.peer_number hpos hrows
    · intro x hx
      exact List.mem_range.mp hx
    · intro c2
      exact Nat.le_refl _
  exact ⟨h1, Nat.sub_add_cancel h1⟩

/-- Witness for calculateSV_no_underflow on the concrete state exS at
column 1. -/
theorem calculateSV_no_underflow_witness :
    vvGet exS.SV 1 ≤ vvGet (exS.calculateSV 1).1 1 ∧
      vvGet (exS.calculateSV 1).1 1 - vvGet exS.SV 1 + vvGet exS.SV 1
        = vvGet (exS.calculateSV 1).1 1 :=
  calculateSV_no_underflow exS 1 (by decide) (by decide) 1

/-- The fold of VersionVector.dif is the concatenation of the per index
blocks difCol, in index order. -/
theorem dif_eq_flatMap (g l : VersionVector) (n : Nat) :
    VersionVector.dif g l n = (List.range n).flatMap (difCol g l) := by
  unfold VersionVector.dif
  have haux : ∀ (L : List Nat) (init : List (Nat × Nat)),
      (L.foldl (fun dots i =>
        if vvGet g i - vvGet l i > 0 then
          dots ++ (List.range' (vvGet l i + 1) (vvGet g i - vvGet l i)).map
            (fun cntr => (i, cntr))
        else dots) init) = init ++ L.flatMap (difCol g l) := by
    intro L
    induction L with
    | nil => intro init; simp
    | cons x rest ih =>
      intro init
      rw [List.foldl_cons, List.flatMap_cons, ih]
      unfold difCol
      by_cases hc : vvGet g x - vvGet l x > 0
      · rw [if_pos hc, if_pos hc, List.append_assoc]
      · rw [if_neg hc, if_neg hc]
        simp
  rw [haux]
  simp

/-- Membership in one difCol block. -/
theorem mem_difCol (g l : VersionVector) (i a b : Nat) :
    (a, b) ∈ difCol g l i ↔ a = i ∧ vvGet l i < b ∧ b ≤ vvGet g i := by
  unfold difCol
  by_cases hc : vvGet g i - vvGet l i > 0
  · rw [if_pos hc]
    simp only [List.mem_map, List.mem_range'_1, Prod.mk.injEq]
    constructor
    · rintro ⟨c, ⟨h1, h2⟩, he1, he2⟩
      subst he1
      subst he2
      omega
    · rintro ⟨ha, h1, h2⟩
      subst ha
      exact ⟨b, ⟨by omega, by omega⟩, rfl, rfl⟩
  · rw [if_neg hc]
    simp only [List.not_mem_nil, false_iff]
    omega

/-- Membership in VersionVector.dif: exactly the pairs (a, b) with a a
grown column and b between the old entry plus one and the new entry. -/
theorem mem_dif (g l : VersionVector) (n a b : Nat) :
    (a, b) ∈ VersionVector.dif g l n ↔
      a < n ∧ vvGet l a < b ∧ b ≤ vvGet g a := by
  rw [dif_eq_flatMap]
  simp only [List.mem_flatMap, List.mem_range]
  constructor
  · rintro ⟨i, hi, hmem⟩
    obtain ⟨ha, h1, h2⟩ := (mem_difCol g l i a b).mp hmem
    subst ha
    exact ⟨hi, h1, h2⟩
  · rintro ⟨ha, h1, h2⟩
    exact ⟨a, ha, (mem_difCol g l a a b).mpr ⟨rfl, h1, h2⟩⟩

/-- Each difCol block has no duplicates. -/
theorem nodup_difCol (g l : VersionVector) (i : Nat) : (difCol g l i).Nodup := by
  unfold difCol
  by_cases hc : vvGet g i - vvGet l i > 0
  · rw [if_pos hc]
    apply List.Nodup.map
    · intro x y hxy
      exact (Prod.mk.injEq i x i y).mp hxy |>.2
    · exact List.nodup_range' _ _
  · rw [if_neg hc]
    exact List.nodup_nil

/-- VersionVector.dif enumerates each dot at most once. -/
theorem nodup_dif (g l : VersionVector) (n : Nat) :
    (VersionVector.dif g l n).Nodup := by
  rw [dif_eq_flatMap, List.flatMap_def, List.nodup_flatten]
  constructor
  · intro inner hinner
    rw [List.mem_map] at hinner
    obtain ⟨i, _, hi⟩ := hinner
    rw [← hi]
    exact nodup_difCol g l i
  · rw [List.pairwise_map]
    apply List.Pairwise.imp ?_ (List.nodup_range n)
    intro i j hij
    intro p hp hq
    obtain ⟨a, b⟩ := p
    have h1 := ((mem_difCol g l i a b).mp hp).1
    have h2 := ((mem_difCol g l j a b).mp hq).1
    exact hij (h1 ▸ h2)

/-- Removing one key leaves lookups of other keys unchanged. -/
theorem smapGet_remove_ne (m : vv.SMapT) (d d2 : Dot) (h : d2 ≠ d) :
    vv.smapGet (vv.smapRemove m d) d2 = vv.smapGet m d2 := by
  induction m with
  | nil => rfl
  | cons p rest ih =>
    unfold vv.smapRemove at *
    unfold vv.smapGet at *
    rw [List.filter_cons]
    by_cases hk : p.1 = d
    · have hpc : ¬ (decide ¬(p.1 == d) = true) = true := by simp [hk]
      rw [if_neg (by simpa using hpc)]
      rw [List.find?_cons]
      have : (p.1 == d2) = false := by
        simp only [beq_eq_false_iff_ne, ne_eq]
        intro he
        exact h (he ▸ hk ▸ rfl)
      rw [this]
      exact ih
    · rw [if_pos (by simpa using hk)]
      rw [List.find?_cons, List.find?_cons]
      by_cases hk2 : p.1 = d2
      · rw [show (p.1 == d2) = true from by simpa using hk2]
      · rw [show (p.1 == d2) = false from by simpa using hk2]
        exact ih

/-- Removing a key removes it. -/
theorem smapContains_remove_self (m : vv.SMapT) (d : Dot) :
    vv.smapContains (vv.smapRemove m d) d = false := by
  unfold vv.smapContains vv.smapRemove
  rw [List.any_filter]
  simp

/-- A key absent from the map stays absent after any removal. -/
theorem smapContains_remove_of_false (m : vv.SMapT) (k d : Dot)
    (h : vv.smapContains m d = false) :
    vv.smapContains (vv.smapRemove m k) d = false := by
  unfold vv.smapContains vv.smapRemove at *
  rw [List.any_filter]
  rw [List.any_eq_false] at h ⊢
  intro p hp
  simp only [Bool.and_eq_true, not_and]
  intro _
  have := h p hp
  simpa using this

/-- Iterated removal leaves lookups of keys outside the removed list
unchanged. -/
theorem foldl_remove_get_ne :
    ∀ (SD : List Dot) (m : vv.SMapT) (d : Dot), d ∉ SD →
      vv.smapGet (SD.foldl vv.smapRemove m) d = vv.smapGet m d := by
  intro SD
  induction SD with
  | nil => intro m d _; rfl
  | cons x rest ih =>
    intro m d hd
    rw [List.foldl_cons]
    rw [ih (vv.smapRemove m x) d (fun h => hd (List.mem_cons_of_mem x h))]
    exact smapGet_remove_ne m x d (fun h => hd (h ▸ List.mem_cons_self x rest))

/-- Iterated removal never reintroduces a key. -/
theorem foldl_remove_contains_of_false :
    ∀ (SD : List Dot) (m : vv.SMapT) (d : Dot), vv.smapContains m d = false →
      vv.smapContains (SD.foldl vv.smapRemove m) d = false := by
  intro SD
  induction SD with
  | nil => intro m d h; exact h
  | cons x rest ih =>
    intro m d h
    rw [List.foldl_cons]
    exact ih _ d (smapContains_remove_of_false m x d h)

/-- Iterated removal removes every key of the list. -/
theorem foldl_remove_contains :
    ∀ (SD : List Dot) (m : vv.SMapT) (d : Dot), d ∈ SD →
      vv.smapContains (SD.foldl vv.smapRemove m) d = false := by
  intro SD
  induction SD with
  | nil => intro m d h; cases h
  | cons x rest ih =>
    intro m d hd
    rw [List.foldl_cons]
    cases hd with
    | head =>
      exact foldl_remove_contains_of_false rest _ _ (smapContains_remove_self m _)
    | tail _ hmem => exact ih _ d hmem

/-- Specification of the emission loop of VV::stabilize on a duplicate
free list of dots all present in the map: it succeeds, removes exactly
those dots and emits their STABLE events in list order. -/
theorem stabilizeEmit_spec :
    ∀ (SD : List Dot) (m : vv.SMapT),
      SD.Nodup → (∀ d ∈ SD, (vv.smapGet m d).isSome = true) →
      vv.stabilizeEmit SD m =
        some (SD.foldl vv.smapRemove m, SD.map (vv.stableEvent m)) := by
  intro SD
  induction SD with
  | nil => intro m _ _; rfl
  | cons d rest ih =>
    intro m hnd hmem
    obtain ⟨hdnot, hndrest⟩ := List.nodup_cons.mp hnd
    obtain ⟨sd, hsd⟩ :=
      Option.isSome_iff_exists.mp (hmem d (List.mem_cons_self d rest))
    unfold vv.stabilizeEmit
    rw [hsd]
    dsimp only
    have hrest : ∀ d2 ∈ rest, (vv.smapGet (vv.smapRemove m d) d2).isSome = true := by
      intro d2 hd2
      rw [smapGet_remove_ne m d d2 (fun h => hdnot (h ▸ hd2))]
      exact hmem d2 (List.mem_cons_of_mem d hd2)
    rw [ih (vv.smapRemove m d) hndrest hrest]
    rw [Option.map_some']
    rw [List.foldl_cons, List.map_cons]
    have hev : vv.stableEvent m d =
        vv.MiddlewareClient.STABLE sd.j sd.message.id sd.message.version_vector := by
      unfold vv.stableEvent
      rw [hsd]
    have hmapeq : rest.map (vv.stableEvent (vv.smapRemove m d)) =
        rest.map (vv.stableEvent m) := by
      apply List.map_congr_left
      intro d2 hd2
      unfold vv.stableEvent
      rw [smapGet_remove_ne m d d2 (fun h => hdnot (h ▸ hd2))]
    rw [hmapeq, hev]

/-- Specification of VV::stabilize: the dots are sorted by their SMap
arrival counter, then emitted and removed in that order. -/
theorem stabilize_spec (s3 : vv.VV) (SD sorted : List Dot)
    (hsorted : sorted = SD.mergeSort
      (fun a b => decide (vv.ctrKey s3.SMap a ≤ vv.ctrKey s3.SMap b)))
    (hnd : sorted.Nodup)
    (hsome : ∀ d ∈ sorted, (vv.smapGet s3.SMap d).isSome = true) :
    vv.VV.stabilize s3 SD =
      some ({ s3 with SMap := sorted.foldl vv.smapRemove s3.SMap },
        sorted.map (vv.stableEvent s3.SMap)) := by
  subst hsorted
  unfold vv.VV.stabilize
  dsimp only
  rw [stabilizeEmit_spec _ _ hnd hsome]
  rfl

/-- In the branch where the sender owns a column of the matrix minimum and
the recomputed stable vector differs, VV::updatestability reduces to
stabilize of the dif dots on the recorded state. -/
theorem updatestability_eq_stabilize (s : vv.VV) (j : Nat) (message : vv.Message)
    (hdup : vv.smapContains s.SMap
      (Dot.mk j (vvGet message.version_vector j)) = false)
    (hown : (s.afterRecord j message).M_entry_row_num.contains j = true)
    (hne : VersionVector.equal (s.afterRecord j message).SV
      ((s.afterRecord j message).calculateSV j).1 = false) :
    vv.VV.updatestability s j message =
      vv.VV.stabilize
        { s.afterRecord j message with
          M_entry_row_num := ((s.afterRecord j message).calculateSV j).2,
          SV := ((s.afterRecord j message).calculateSV j).1 }
        ((VersionVector.dif ((s.afterRecord j message).calculateSV j).1
            (s.afterRecord j message).SV
            ((s.afterRecord j message).calculateSV j).1.length).map
          (fun q => Dot.mk q.1 q.2)) := by
  unfold vv.VV.updatestability
  simp only [hdup, Bool.false_eq_true, if_false]
  unfold vv.VV.updatestabilityCore
  simp only [hown, eq_self_iff_true, if_true]
  simp only [hne, Bool.false_eq_true, if_false]

/-- C5: whenever updatestability recomputes a stable vector newSV that
differs from the current SV, the emitted Stable dots are exactly the set
of (k, c) with SV[k] < c and c at most newSV[k], emitted in ascending
order of their SMap arrival counter, each removed from SMap while all
other SMap entries survive, and the stable vector of the final state is
newSV. The hypothesis hmono records that the recomputed vector dominates
the old one, the condition under which the Nat model of dif coincides
with the Rust usize subtraction. -/
theorem updatestability_emits_difference
    (s : vv.VV) (j : Nat) (message : vv.Message)
    (s1 : vv.VV) (hs1 : s1 = s.afterRecord j message)
    (newSV : VersionVector) (hnew : newSV = (s1.calculateSV j).1)
    (hdup : vv.smapContains s.SMap
      (Dot.mk j (vvGet message.version_vector j)) = false)
    (hown : s1.M_entry_row_num.contains j = true)
    (hne : VersionVector.equal s1.SV newSV = false)
    (hmono : ∀ c, c < newSV.length → vvGet s1.SV c ≤ vvGet newSV c)
    (hmem : ∀ q ∈ VersionVector.dif newSV s1.SV newSV.length,
      (vv.smapGet s1.SMap (Dot.mk q.1 q.2)).isSome = true) :
    ∃ s2 dots,
      vv.VV.updatestability s j message =
        some (s2, dots.map (vv.stableEvent s1.SMap)) ∧
      s2.SV = newSV ∧
      dots.Nodup ∧
      (∀ d : Dot, d ∈ dots ↔
        (d.id < newSV.length ∧ vvGet s1.SV d.id < d.counter ∧
          d.counter ≤ vvGet newSV d.id)) ∧
      List.Pairwise (fun a b => vv.ctrKey s1.SMap a ≤ vv.ctrKey s1.SMap b) dots ∧
      (∀ d ∈ dots, vv.smapContains s2.SMap d = false) ∧
      (∀ d : Dot, d ∉ dots → vv.smapGet s2.SMap d = vv.smapGet s1.SMap d) := by
  subst hs1
  subst hnew
  set A := s.afterRecord j message with hA
  set pr := A.calculateSV j with hpr
  set DIF := VersionVector.dif pr.1 A.SV pr.1.length with hDIF
  set SD := DIF.map (fun q => Dot.mk q.1 q.2) with hSD
  set cmp := fun a b => decide (vv.ctrKey A.SMap a ≤ vv.ctrKey A.SMap b) with hcmp
  set sorted := SD.mergeSort cmp with hsorted
  have hperm : sorted.Perm SD := by
    rw [hsorted]
    exact List.mergeSort_perm SD cmp
  have hSDnodup : SD.Nodup := by
    rw [hSD]
    refine List.Nodup.map ?_ ?_
    · intro x y hxy
      obtain ⟨a, b⟩ := x
      obtain ⟨c, d⟩ := y
      simpa using hxy
    · rw [hDIF]
      exact nodup_dif _ _ _
  have hmemSD : ∀ d : Dot, d ∈ SD ↔
      (d.id < pr.1.length ∧ vvGet A.SV d.id < d.counter ∧
        d.counter ≤ vvGet pr.1 d.id) := by
    intro d
    rw [hSD, List.mem_map]
    constructor
    · rintro ⟨q, hq, rfl⟩
      obtain ⟨a, b⟩ := q
      rw [hDIF] at hq
      simpa using (mem_dif pr.1 A.SV pr.1.length a b).mp hq
    · rintro ⟨h1, h2, h3⟩
      refine ⟨(d.id, d.counter), ?_, by cases d; rfl⟩
      rw [hDIF]
      exact (mem_dif pr.1 A.SV pr.1.length d.id d.counter).mpr ⟨h1, h2, h3⟩
  have hsortednodup : sorted.Nodup := hperm.nodup_iff.mpr hSDnodup
  have hsomesorted : ∀ d ∈ sorted, (vv.smapGet A.SMap d).isSome = true := by
    intro d hd
    obtain ⟨di, dc⟩ := d
    have h2 := (hmemSD ⟨di, dc⟩).mp (hperm.mem_iff.mp hd)
    have hq : (di, dc) ∈ DIF := by
      rw [hDIF]
      exact (mem_dif pr.1 A.SV pr.1.length di dc).mpr (by simpa using h2)
    simpa using hmem (di, dc) hq
  have htrans : ∀ a b c, cmp a b = true → cmp b c = true → cmp a c = true := by
    intro a b c hab hbc
    rw [hcmp] at hab hbc ⊢
    simp only [decide_eq_true_eq] at hab hbc ⊢
    omega
  have htotal : ∀ a b, (cmp a b || cmp b a) = true := by
    intro a b
    rw [hcmp]
    simp only [Bool.or_eq_true, decide_eq_true_eq]
    omega
  have hpair : List.Pairwise
      (fun a b => vv.ctrKey A.SMap a ≤ vv.ctrKey A.SMap b) sorted := by
    rw [hsorted]
    refine (@List.sorted_mergeSort Dot cmp htrans htotal SD).imp ?_
    intro a b hab
    rw [hcmp] at hab
    simpa using hab
  rw [updatestability_eq_stabilize s j message hdup hown hne]
  dsimp only
  rw [← hA, ← hpr, ← hDIF, ← hSD]
  rw [stabilize_spec
    (vv.VV.mk A.V A.R A.DQ A.M pr.2 pr.1 A.SMap A.ctr A.peer_index
      A.track_causal_stability A.peer_number)
    SD sorted rfl hsortednodup hsomesorted]
  refine ⟨_, sorted, rfl, rfl, hsortednodup, ?_, hpair, ?_, ?_⟩
  · intro d
    exact (hperm.mem_iff).trans (hmemSD d)
  · intro d hd
    exact foldl_remove_contains sorted _ d hd
  · intro d hd
    exact foldl_remove_get_ne sorted _ d hd

/-- Witness for updatestability_emits_difference on the concrete state exS
receiving the message exM from peer 1. -/
theorem updatestability_emits_difference_witness :
    ∃ s2 dots,
      vv.VV.updatestability exS 1 exM =
        some (s2, dots.map (vv.stableEvent (exS.afterRecord 1 exM).SMap)) ∧
      s2.SV = ((exS.afterRecord 1 exM).calculateSV 1).1 ∧
      dots.Nodup ∧
      (∀ d : Dot, d ∈ dots ↔
        (d.id < ((exS.afterRecord 1 exM).calculateSV 1).1.length ∧
          vvGet (exS.afterRecord 1 exM).SV d.id < d.counter ∧
          d.counter ≤ vvGet ((exS.afterRecord 1 exM).calculateSV 1).1 d.id)) ∧
      List.Pairwise (fun a b => vv.ctrKey (exS.afterRecord 1 exM).SMap a ≤
        vv.ctrKey (exS.afterRecord 1 exM).SMap b) dots ∧
      (∀ d ∈ dots, vv.smapContains s2.SMap d = false) ∧
      (∀ d : Dot, d ∉ dots →
        vv.smapGet s2.SMap d = vv.smapGet (exS.afterRecord 1 exM).SMap d) :=
  updatestability_emits_difference exS 1 exM (exS.afterRecord 1 exM) rfl
    ((exS.afterRecord 1 exM).calculateSV 1).1 rfl (by decide) (by decide)
    (by decide) (by decide) (by decide)

/-- Case analysis of getD after a list set. -/
theorem getD_set_cases {α : Type} (l : List α) (n r : Nat) (a dflt : α) :
    (l.set n a).getD r dflt =
      if n = r ∧ n < l.length then a else l.getD r dflt := by
  rw [List.getD_eq_getElem?_getD, List.getElem?_set]
  by_cases h1 : n = r
  · subst h1
    by_cases h2 : n < l.length
    · simp [h2]
    · have he : l[n]? = none := List.getElem?_eq_none (by omega)
      simp [h2, List.getD_eq_getElem?_getD, he]
  · simp [h1, List.getD_eq_getElem?_getD]

/-- The column minimum scan of calculateSV is at most every scanned row
entry of the column. -/
theorem colMinAux_le_row (M : List VersionVector) (column N r : Nat)
    (hr : r < N) :
    (vv.colMinAux M column N).1 ≤ vvGet (M.getD r []) column := by
  unfold vv.colMinAux
  have haux : ∀ (L : List Nat) (acc : Nat × Nat),
      (L.foldl (fun acc row =>
        if vvGet (M.getD row []) column < acc.1 then (vvGet (M.getD row []) column, row)
        else acc) acc).1 ≤ acc.1 ∧
      ∀ x ∈ L, (L.foldl (fun acc row =>
        if vvGet (M.getD row []) column < acc.1 then (vvGet (M.getD row []) column, row)
        else acc) acc).1 ≤ vvGet (M.getD x []) column := by
    intro L
    induction L with
    | nil => intro acc; exact ⟨Nat.le_refl _, fun x hx => absurd hx (List.not_mem_nil x)⟩
    | cons y rest ih =>
      intro acc
      rw [List.foldl_cons]
      by_cases hlt : vvGet (M.getD y []) column < acc.1
      · rw [if_pos hlt]
        refine ⟨Nat.le_trans (ih _).1 (by omega), ?_⟩
        intro x hx
        cases hx with
        | head => exact (ih _).1
        | tail _ hmem => exact (ih _).2 x hmem
      · rw [if_neg hlt]
        refine ⟨(ih _).1, ?_⟩
        intro x hx
        cases hx with
        | head => exact Nat.le_trans (ih _).1 (by omega)
        | tail _ hmem => exact (ih _).2 x hmem
  by_cases hr0 : r = 0
  · subst hr0
    exact (haux _ _).1
  · refine (haux _ _).2 r ?_
    rw [List.mem_range'_1]
    omega

/-- Every entry of the vector calculateSV returns either keeps its old
stable vector value or is bounded by the whole matrix column. -/
theorem calculateSV_entry_bound (s : vv.VV) (j : Nat) :
    ∀ c, vvGet (s.calculateSV j).1 c = vvGet s.SV c ∨
      (∀ r, r < s.peer_number →
        vvGet (s.calculateSV j).1 c ≤ vvGet (s.M.getD r []) c) := by
  unfold vv.VV.calculateSV
  dsimp only
  have haux : ∀ (cols : List Nat), (∀ x ∈ cols, x < s.peer_number) →
      ∀ (acc : VersionVector × VersionVector),
        (∀ c, vvGet acc.1 c = vvGet s.SV c ∨
          (∀ r, r < s.peer_number → vvGet acc.1 c ≤ vvGet (s.M.getD r []) c)) →
        ∀ c, vvGet ((cols.foldl (fun acc column =>
            if vvGet acc.2 column = j then
              (acc.1.set column (vv.colMinAux s.M column s.peer_number).1,
               acc.2.set column (vv.colMinAux s.M column s.peer_number).2)
            else acc) acc).1) c = vvGet s.SV c ∨
          (∀ r, r < s.peer_number →
            vvGet ((cols.foldl (fun acc column =>
              if vvGet acc.2 column = j then
                (acc.1.set column (vv.colMinAux s.M column s.peer_number).1,
                 acc.2.set column (vv.colMinAux s.M column s.peer_number).2)
              else acc) acc).1) c ≤ vvGet (s.M.getD r []) c) := by
    intro cols
    induction cols with
    | nil => intro _ acc hacc c; exact hacc c
    | cons col rest ih =>
      intro hbound acc hacc
      rw [List.foldl_cons]
      by_cases hown : vvGet acc.2 col = j
      · rw [if_pos hown]
        apply ih (fun x hx => hbound x (List.mem_cons_of_mem col hx))
        intro c2
        unfold vvGet
        rw [getD_set_cases]
        by_cases hcase : col = c2 ∧ col < acc.1.length
        · rw [if_pos hcase]
          right
          intro r hr
          have := colMinAux_le_row s.M col s.peer_number r hr
          rw [← hcase.1]
          exact this
        · rw [if_neg hcase]
          exact hacc c2
      · rw [if_neg hown]
        exact ih (fun x hx => hbound x (List.mem_cons_of_mem col hx)) acc hacc
  apply haux
  · intro x hx
    exact List.mem_range.mp hx
  · intro c
    left
    rfl

/-- The row writes of updatestability keep the stable vector a pointwise
lower bound of every matrix row, provided the local version vector and
the message version vector dominate the stable vector, as protocol
compliant traffic guarantees. -/
theorem afterRecord_rows_below (s : vv.VV) (j : Nat) (message : vv.Message)
    (hV : ∀ c, c < s.peer_number → vvGet s.SV c ≤ vvGet s.V c)
    (hvv : ∀ c, c < s.peer_number → vvGet s.SV c ≤ vvGet message.version_vector c)
    (hrows : ∀ r, r < s.peer_number → ∀ c, c < s.peer_number →
      vvGet s.SV c ≤ vvGet (s.M.getD r []) c) :
    ∀ r, r < s.peer_number → ∀ c, c < s.peer_number →
      vvGet s.SV c ≤ vvGet ((s.afterRecord j message).M.getD r []) c := by
  intro r hr c hc
  unfold vv.VV.afterRecord
  dsimp only
  by_cases hj : j ≠ s.peer_index
  · rw [if_pos hj, getD_set_cases]
    by_cases hcase1 : j = r ∧ j < (s.M.set s.peer_index s.V).length
    · rw [if_pos hcase1]
      exact hvv c hc
    · rw [if_neg hcase1, getD_set_cases]
      by_cases hcase2 : s.peer_index = r ∧ s.peer_index < s.M.length
      · rw [if_pos hcase2]
        exact hV c hc
      · rw [if_neg hcase2]
        exact hrows r hr c hc
  · rw [if_neg hj, getD_set_cases]
    by_cases hcase2 : s.peer_index = r ∧ s.peer_index < s.M.length
    · rw [if_pos hcase2]
      exact hV c hc
    · rw [if_neg hcase2]
      exact hrows r hr c hc

/-- One full updatestability call preserves the lower bound invariant
used by the no underflow theorem, under the same domination hypotheses:
the new stable vector is still a pointwise lower bound of every matrix
row, so the column minima are non decreasing across engine operations. -/
theorem updatestability_preserves_below (s : vv.VV) (j : Nat) (message : vv.Message)
    (s2 : vv.VV) (trace : List vv.MiddlewareClient)
    (h : vv.VV.updatestability s j message = some (s2, trace))
    (hV : ∀ c, c < s.peer_number → vvGet s.SV c ≤ vvGet s.V c)
    (hvv : ∀ c, c < s.peer_number → vvGet s.SV c ≤ vvGet message.version_vector c)
    (hrows : ∀ r, r < s.peer_number → ∀ c, c < s.peer_number →
      vvGet s.SV c ≤ vvGet (s.M.getD r []) c) :
    ∀ r, r < s2.peer_number → ∀ c, c < s2.peer_number →
      vvGet s2.SV c ≤ vvGet (s2.M.getD r []) c := by
  have hArows := afterRecord_rows_below s j message hV hvv hrows
  unfold vv.VV.updatestability at h
  by_cases hdup : vv.smapContains s.SMap
      (Dot.mk j (vvGet message.version_vector j)) = true
  · rw [if_pos hdup] at h
    cases h
  · rw [if_neg hdup] at h
    unfold vv.VV.updatestabilityCore at h
    by_cases hown : (s.afterRecord j message).M_entry_row_num.contains j = true
    · rw [if_pos hown] at h
      dsimp only at h
      by_cases hne : VersionVector.equal (s.afterRecord j message).SV
          ((s.afterRecord j message).calculateSV j).1 = true
      · rw [if_pos hne] at h
        simp only [Option.some_inj, Prod.mk.injEq] at h
        obtain ⟨h1, _⟩ := h
        subst h1
        intro r hr c hc
        exact hArows r hr c hc
      · rw [if_neg hne] at h
        unfold vv.VV.stabilize at h
        dsimp only at h
        rw [Option.map_eq_some'] at h
        obtain ⟨q, _, hfq⟩ := h
        rw [Prod.mk.injEq] at hfq
        obtain ⟨h1, _⟩ := hfq
        subst h1
        intro r hr c hc
        have hg : vvGet ((s.afterRecord j message).calculateSV j).1 c ≤
            vvGet ((s.afterRecord j message).M.getD r []) c := by
          rcases calculateSV_entry_bound (s.afterRecord j message) j c with hcase | hcase
          · rw [hcase]
            exact hArows r hr c hc
          · exact hcase r hr
        exact hg
    · rw [if_neg hown] at h
      simp only [Option.some_inj, Prod.mk.injEq] at h
      obtain ⟨h1, _⟩ := h
      subst h1
      intro r hr c hc
      exact hArows r hr c hc
